import Mathlib

set_option maxHeartbeats 1000000

/-!
Verification development for the finance-tracker backend's extraction core.

The development shallowly embeds, in Lean, the parts of the repository that
the specification talks about:

* `app/services/text_parser.py` — the deterministic text extractor
  (`TextTransactionParser.parse`), including the ordered regex chain it uses;
* `app/services/gemini_parser.py` — the AI extractor's retry policy,
  fence-stripping and default-result handling (the external provider and the
  `json` library are modelled as abstract parameters);
* `app/api/webhooks.py` — the Telegram webhook orchestrator, with the
  external Telegram service and the database modelled as an effect
  environment returning `Except`-typed outcomes.

Python strings are modelled as `List Char`; the handful of concrete regular
expressions in the source are embedded as first-order scanning functions
whose greedy behaviour coincides with Python's backtracking behaviour on
these particular patterns (justified in the doc comment of each matcher).
Python `float` values arising from `float(<digit string>)` are modelled as
exact rationals.
-/

namespace FinanceTracker

/-- The set of characters Python's `str.strip()` and the regex class `\s`
treat as whitespace (ASCII subset; the inputs at issue contain no exotic
Unicode whitespace). -/
def wsChar (c : Char) : Bool :=
  c = ' ' || c = '\t' || c = '\n' || c = '\r' || c = '\x0b' || c = '\x0c'

/-- `s.lstrip()` on a character list. -/
def trimLeft (s : List Char) : List Char := s.dropWhile wsChar

/-- `s.rstrip()` on a character list. -/
def trimRight (s : List Char) : List Char := (s.reverse.dropWhile wsChar).reverse

/-- Python `s.strip()`. -/
def pstrip (s : List Char) : List Char := trimRight (trimLeft s)

/-- Boolean prefix test, mirroring Python `text.startswith(p)`
(`startsW p text`). -/
def startsW : List Char → List Char → Bool
  | [], _ => true
  | _, [] => false
  | a :: as, b :: bs => a == b && startsW as bs

/-- ASCII digit test (regex `\d`; the repository's inputs are ASCII, so the
Unicode digits Python's `\d` additionally accepts are out of scope). -/
def isDig (c : Char) : Bool := 48 ≤ c.toNat && c.toNat ≤ 57

/-- ASCII lowercase letter, the alphabet of the grammar words in §8 of the
spec. -/
def lowerAlpha (c : Char) : Bool := 97 ≤ c.toNat && c.toNat ≤ 122

/-- Numeric value of a digit string (used to model `float` of an integer
digit string exactly). -/
def digitsToNat (l : List Char) : Nat := l.foldl (fun n c => n * 10 + (c.toNat - 48)) 0

/-- Exact value of `float(g)` for a regex group `g` matching `\d+\.?\d*` or
`\d+(\.\d+)?` (modelled as a rational; such strings never raise
`ValueError`). -/
def numVal (g : List Char) : ℚ :=
  match g.dropWhile (fun c => c ≠ '.') with
  | [] => (digitsToNat (g.takeWhile (fun c => c ≠ '.')) : ℚ)
  | _ :: fp =>
    (digitsToNat (g.takeWhile (fun c => c ≠ '.')) : ℚ) +
      (digitsToNat fp : ℚ) / (10 : ℚ) ^ fp.length

/-- The `\.?\d*` tail of the amount fragment: after the integer digits
`d1`, greedily take a dot and following digits from `r1` when present. -/
def numTail (d1 r1 : List Char) : List Char × List Char :=
  if startsW ['.'] r1 then
    (d1 ++ '.' :: (r1.drop 1).takeWhile isDig, (r1.drop 1).dropWhile isDig)
  else (d1, r1)

/-- Match the regex fragment `\d+\.?\d*` at the head of `s`, greedily,
returning the matched group and the rest.  Greedy matching without
backtracking agrees with Python here because in every pattern that uses this
fragment the continuation (`\s*` followed by a currency word, or the end of
the pattern) cannot begin with a digit or a dot. -/
def matchNumAt (s : List Char) : Option (List Char × List Char) :=
  if (s.takeWhile isDig).isEmpty then none
  else some (numTail (s.takeWhile isDig) (s.dropWhile isDig))

/-- Match the alternation `(?:rs|rupees?|inr|₹)` at the head of `s`
(in Python's alternation order, with the greedy optional `s`), returning the
rest after the marker. -/
def matchAlt1At (s : List Char) : Option (List Char) :=
  if startsW "rs".data s then some (s.drop 2)
  else if startsW "rupee".data s then
    let t := s.drop 5
    if startsW "s".data t then some (t.drop 1) else some t
  else if startsW "inr".data s then some (s.drop 3)
  else if startsW "₹".data s then some (s.drop 1)
  else none

/-- Match the alternation `(?:rs|rupees?|inr)` (pattern 3's tail, without the
rupee symbol). -/
def matchAlt3At (s : List Char) : Option (List Char) :=
  if startsW "rs".data s then some (s.drop 2)
  else if startsW "rupee".data s then
    let t := s.drop 5
    if startsW "s".data t then some (t.drop 1) else some t
  else if startsW "inr".data s then some (s.drop 3)
  else none

/-- Match pattern 1, `(\d+\.?\d*)\s*(?:rs|rupees?|inr|₹)`, at the head of
`s`; returns `(group 1, rest after the whole match)`. -/
def matchPat1At (s : List Char) : Option (List Char × List Char) :=
  (matchNumAt s).bind fun gr =>
    (matchAlt1At (gr.2.dropWhile wsChar)).map fun rest => (gr.1, rest)

/-- Match pattern 2, `₹\s*(\d+\.?\d*)`, at the head of `s`. -/
def matchPat2At (s : List Char) : Option (List Char × List Char) :=
  if startsW "₹".data s then matchNumAt ((s.drop 1).dropWhile wsChar) else none

/-- Match pattern 3, `(\d+\.?\d*)\s*(?:rs|rupees?|inr)`, at the head of `s`. -/
def matchPat3At (s : List Char) : Option (List Char × List Char) :=
  (matchNumAt s).bind fun gr =>
    (matchAlt3At (gr.2.dropWhile wsChar)).map fun rest => (gr.1, rest)

/-- `re.search`: try the at-position matcher `m` at every position from the
left; on the first success return `(text before the match, group 1, text
after the match)`, mirroring `text[:m.start()]` / `text[m.end():]`. -/
def searchAt (m : List Char → Option (List Char × List Char)) :
    List Char → Option (List Char × List Char × List Char)
  | [] =>
    match m [] with
    | some (g, a) => some ([], g, a)
    | none => none
  | c :: t =>
    match m (c :: t) with
    | some (g, a) => some ([], g, a)
    | none => (searchAt m t).map fun x => (c :: x.1, x.2.1, x.2.2)

/-- The verb list stripped by `TextTransactionParser.parse` before amount
extraction, in source order. -/
def commonPrefixes : List String := ["add", "spent", "spend", "paid", "expense", "exp"]

/-- The connector words stripped from the residual text, in source order. -/
def connectorWords : List String := ["as", "for", "on", "at", "to", "from"]

/-- One iteration of the verb-stripping loop
(`if text.startswith(prefix): text = text[len(prefix):].strip()`),
instrumented with a strip counter. -/
def stripStep (acc : List Char × Nat) (v : String) : List Char × Nat :=
  if startsW v.data acc.1 then (pstrip (acc.1.drop v.data.length), acc.2 + 1) else acc

/-- The verb-stripping loop of `TextTransactionParser.parse`, instrumented
with the number of verbs stripped.  Note the loop keeps going after a
successful strip. -/
def stripPrefixLoop (s : List Char) : List Char × Nat :=
  commonPrefixes.foldl stripStep (s, 0)

/-- One iteration of the connector-stripping loop
(`if remaining_text.startswith(connector + " "): remaining_text =
remaining_text[len(connector):].strip()`). -/
def connStep (t : List Char) (c : String) : List Char :=
  if startsW (c.data ++ [' ']) t then pstrip (t.drop c.data.length) else t

/-- The connector-stripping loop. -/
def stripConnectorLoop (s : List Char) : List Char :=
  connectorWords.foldl connStep s

/-- Separator class of `re.split(r'[,\s]+', ..., maxsplit=1)`. -/
def sepChar (c : Char) : Bool := c = ',' || wsChar c

/-- `parts[0].strip()`, defaulted to "Uncategorized" when falsy. -/
def catName (tok : List Char) : String :=
  if (pstrip tok).isEmpty then "Uncategorized" else String.mk (pstrip tok)

/-- `parts[1].strip()` when truthy (the text after the first separator run,
stripped). -/
def merName (rest : List Char) : Option String :=
  if (pstrip (rest.dropWhile sepChar)).isEmpty then none
  else some (String.mk (pstrip (rest.dropWhile sepChar)))

/-- The category/merchant extraction from the residual text: split on the
first `[,\s]+` run (at most once); the first part (stripped) is the category
("Uncategorized" when falsy), the second part (stripped) the merchant when
non-empty. -/
def splitCatMer (t : List Char) : String × Option String :=
  if t.isEmpty then ("Uncategorized", none)
  else
    match t.dropWhile (fun c => !sepChar c) with
    | [] => (catName (t.takeWhile (fun c => !sepChar c)), none)
    | _ :: _ =>
      (catName (t.takeWhile (fun c => !sepChar c)),
        merName (t.dropWhile (fun c => !sepChar c)))

/-- The dictionary returned by `TextTransactionParser.parse` on success. -/
structure TxParsed where
  amount : ℚ
  currency : String
  merchant : Option String
  category : String
  date : Option String
  deriving DecidableEq, Repr

/-- The ordered amount-pattern chain of `TextTransactionParser.parse`:
each `re.search` is tried in sequence, the first match wins, and the
matched span is removed (`text[:match.start()] + text[match.end():]`,
stripped) to give the residual text; finally the anchored
`re.match(r'^(\d+\.?\d*)', text)` fallback.  Returns
`(group 1, residual text)`. -/
def findAmount (t2 : List Char) : Option (List Char × List Char) :=
  match searchAt matchPat1At t2 with
  | some (b, g, a) => some (g, pstrip (b ++ a))
  | none =>
    match searchAt matchPat2At t2 with
    | some (b, g, a) => some (g, pstrip (b ++ a))
    | none =>
      match searchAt matchPat3At t2 with
      | some (b, g, a) => some (g, pstrip (b ++ a))
      | none =>
        match searchAt matchNumAt t2 with
        | some (b, g, a) => some (g, pstrip (b ++ a))
        | none =>
          match matchNumAt t2 with
          | some (g, r) => some (g, pstrip r)
          | none => none

/-- Assembly of the success dictionary from the amount group and the
connector-stripped residual text. -/
def finishParse (g rem1 : List Char) : TxParsed :=
  { amount := numVal g, currency := "INR", merchant := (splitCatMer rem1).2,
    category := (splitCatMer rem1).1, date := none }

/-- `TextTransactionParser.parse` on a character list: normalise, strip
verbs, locate an amount with the ordered pattern chain (first match wins,
its span removed from the text), strip connectors, split category/merchant.
Returns `none` (Python `None`) when no amount is found. -/
def parseCore (input : List Char) : Option TxParsed :=
  if (pstrip input).isEmpty then none
  else
    match findAmount (stripPrefixLoop ((pstrip input).map Char.toLower)).1 with
    | none => none
    | some (g, rem0) => some (finishParse g (stripConnectorLoop rem0))

/-- `TextTransactionParser.parse` (app/services/text_parser.py). -/
def TextTransactionParser.parse (s : String) : Option TxParsed := parseCore s.data

example : TextTransactionParser.parse "add 15rs as coffee" =
    some { amount := 15, currency := "INR", merchant := none,
           category := "coffee", date := none } := by decide

example : TextTransactionParser.parse "42" =
    some { amount := 42, currency := "INR", merchant := none,
           category := "Uncategorized", date := none } := by decide

example : TextTransactionParser.parse "spent 50 on food" =
    some { amount := 50, currency := "INR", merchant := none,
           category := "food", date := none } := by decide

example : TextTransactionParser.parse "hello there" = none := by decide

example : TextTransactionParser.parse "₹15 coffee" =
    some { amount := 15, currency := "INR", merchant := none,
           category := "coffee", date := none } := by decide

example : TextTransactionParser.parse "15 inr coffee shop" =
    some { amount := 15, currency := "INR", merchant := some "shop",
           category := "coffee", date := none } := by decide

/-! ## AI extractor (app/services/gemini_parser.py)

The Gemini provider, the `json` standard library and PIL are external
collaborators; they are modelled as parameters: the provider as a function
from the attempt index to either a response text or a raised error message,
JSON decoding as an abstract partial function into the decoded field
dictionary, and `Image.open` as an `Except`-valued outcome. -/

/-- Substring test (`needle in haystack` on Python strings). -/
def containsSub (n : List Char) : List Char → Bool
  | [] => startsW n []
  | c :: t => startsW n (c :: t) || containsSub n t

/-- `_is_rate_limit_error`: the error signal mentions HTTP 429 or the
quota marker. -/
def isRateLimitError (e : String) : Bool :=
  containsSub "429".data e.data || containsSub "RESOURCE_EXHAUSTED".data e.data

/-- `RETRY_DELAY_MAX` from gemini_parser.py. -/
def RETRY_DELAY_MAX : Nat := 60

/-- Case-insensitive prefix test (regex literal text under
`re.IGNORECASE`). -/
def ciStartsW : List Char → List Char → Bool
  | [], _ => true
  | _, [] => false
  | a :: as, b :: bs => a.toLower == b.toLower && ciStartsW as bs

/-- The `\s*s` tail of the retry-hint pattern: skip whitespace, require a
case-insensitive `s`, and return the already-matched group `g`. -/
def matchRetryEnd (g r2 : List Char) : Option (List Char) :=
  match r2.dropWhile wsChar with
  | c :: _ => if c.toLower == 's' then some g else none
  | [] => none

/-- The optional fraction group `(?:\.\d+)?` of the retry-hint pattern:
taken (greedily) exactly when a dot with at least one following digit is
present. -/
def matchRetryTail (d1 r1 : List Char) : Option (List Char) :=
  if startsW ['.'] r1 && !((r1.drop 1).takeWhile isDig).isEmpty then
    matchRetryEnd (d1 ++ '.' :: (r1.drop 1).takeWhile isDig) ((r1.drop 1).dropWhile isDig)
  else matchRetryEnd d1 r1

/-- The `(\d+...)...s` part of the retry-hint pattern after the literal
text: at least one digit, then the fraction and `\s*s` tails. -/
def matchRetryCore (t : List Char) : Option (List Char) :=
  if (t.takeWhile isDig).isEmpty then none
  else matchRetryTail (t.takeWhile isDig) (t.dropWhile isDig)

/-- Match `retry in (\d+(?:\.\d+)?)\s*s` (case-insensitive) at the head of
`s`, returning group 1.  Greedy matching agrees with Python's backtracking
here: giving back digits of `\d+`, or dropping the optional fraction group,
always leaves the next character a digit or a dot, which can satisfy
neither `\s*` + `s` nor `s`. -/
def matchRetryAt (s : List Char) : Option (List Char) :=
  if ciStartsW "retry in ".data s then matchRetryCore (s.drop 9) else none

/-- `re.search` for the retry-hint pattern: first (leftmost) match wins. -/
def searchRetry : List Char → Option (List Char)
  | [] => none
  | c :: t =>
    match matchRetryAt (c :: t) with
    | some g => some g
    | none => searchRetry t

/-- `_parse_retry_seconds`: extract the suggested wait from a 429 message
(`min(int(float(g) + 1), RETRY_DELAY_MAX)`), else `RETRY_DELAY_MAX`.
The group `g` matches `\d+(?:\.\d+)?`, so `float(g)` is `d + frac` with `d`
the value of the digits before the dot and `0 ≤ frac < 1`; `int` truncates
toward zero, hence `int(float(g) + 1) = d + 1`. -/
def parseRetrySeconds (msg : String) : Nat :=
  match searchRetry msg.data with
  | some g => min (digitsToNat (g.takeWhile (fun c => c ≠ '.')) + 1) RETRY_DELAY_MAX
  | none => RETRY_DELAY_MAX

example : parseRetrySeconds "429 RESOURCE_EXHAUSTED please retry in 5.2s." = 6 := by decide

example : parseRetrySeconds "Retry in 3s" = 4 := by decide

example : parseRetrySeconds "quota exceeded" = 60 := by decide

example : parseRetrySeconds "retry in 955s" = 60 := by decide

/-- Python `text.split("\n")`. -/
def splitNl : List Char → List (List Char)
  | [] => [[]]
  | c :: t =>
    if c = '\n' then [] :: splitNl t
    else
      match splitNl t with
      | [] => [[c]]
      | l :: ls => (c :: l) :: ls

/-- Python `"\n".join(lines)`. -/
def joinNl : List (List Char) → List Char
  | [] => []
  | [l] => l
  | l :: ls => l ++ '\n' :: joinNl ls

/-- `if lines[0].startswith("```"): lines = lines[1:]`. -/
def dropFirstFence (lines : List (List Char)) : List (List Char) :=
  match lines with
  | l :: ls => if startsW "```".data l then ls else lines
  | [] => lines

/-- `if lines and lines[-1].strip() == "```": lines = lines[:-1]`. -/
def dropLastFence (lines : List (List Char)) : List (List Char) :=
  match lines.getLast? with
  | some last => if pstrip last = "```".data then lines.dropLast else lines
  | none => lines

/-- The fence-stripping step of `_extract_json_from_response`: strip the
text, and when it starts with a Markdown code fence split it into lines,
drop the opening fence line and a final line that is exactly a closing
fence (after stripping), and re-join. -/
def stripFences (raw : List Char) : List Char :=
  if startsW "```".data (pstrip raw) then
    joinNl (dropLastFence (dropFirstFence (splitNl (pstrip raw))))
  else pstrip raw

/-- A JSON text wrapped in Markdown code fences, as produced by the
provider: an opening fence line (with an optional language tag) and a
closing fence line. -/
def mkFenced (lang j : List Char) : List Char :=
  ("```".data ++ lang) ++ '\n' :: (j ++ '\n' :: "```".data)

/-- The field dictionary obtained from a successfully decoded provider JSON
response.  `currency := none` models the key being absent (so that
`data.get("currency", "INR")` falls back to the default), while
`currency := some none` models an explicit JSON `null`. -/
structure JsonObj where
  merchant : Option String
  amount : Option ℚ
  currency : Option (Option String)
  date : Option String
  category : Option String
  deriving DecidableEq, Repr

/-- A model of `json.loads` composed with reading the five fields: `none`
means the text is not valid JSON (a `JSONDecodeError`). -/
def JsonParseModel : Type := List Char → Option JsonObj

/-- `_extract_json_from_response`: fence-strip, then decode; a decode
failure raises `ValueError` (modelled as `Except.error`). -/
def extractJson (jp : JsonParseModel) (raw : List Char) : Except String JsonObj :=
  match jp (stripFences raw) with
  | some d => .ok d
  | none => .error "Invalid JSON"

/-- The result dictionary produced by the AI extractor.  `rateLimited`
models the presence of the `_rate_limit` key. -/
structure AIResult where
  merchant : Option String
  amount : Option ℚ
  currency : Option String
  date : Option String
  category : Option String
  rateLimited : Bool
  deriving DecidableEq, Repr

/-- `_DEFAULT_RESULT` from gemini_parser.py. -/
def DEFAULT_RESULT : AIResult :=
  { merchant := none, amount := none, currency := some "INR", date := none,
    category := none, rateLimited := false }

/-- `_DEFAULT_RESULT` with the `_rate_limit` key added. -/
def DEFAULT_RATE_LIMITED : AIResult := { DEFAULT_RESULT with rateLimited := true }

/-- Assembly of the result dictionary from decoded JSON data (the
`data.get(...)` block shared by `parse` and `parse_text`). -/
def assembleResult (d : JsonObj) : AIResult :=
  { merchant := d.merchant, amount := d.amount,
    currency := match d.currency with | none => some "INR" | some v => v,
    date := d.date, category := d.category, rateLimited := false }

/-- `GeminiParser._generate_with_retry`: call the provider; re-raise a
non-rate-limit error; on a rate-limit error sleep (abstracted away — the
delay does not affect the returned value) and retry once; if the retry is
also rate-limited return `(None, True)`.  The second component counts the
provider calls actually made. -/
def generateWithRetry (provider : Nat → Except String String) :
    Except String (Option String × Bool) × Nat :=
  match provider 0 with
  | .ok r => (.ok (some r, false), 1)
  | .error e =>
    if isRateLimitError e then
      match provider 1 with
      | .ok r => (.ok (some r, false), 2)
      | .error e2 =>
        if isRateLimitError e2 then (.ok (none, true), 2) else (.error e2, 2)
    else (.error e, 1)

/-- `_get_response_text` applied to the response returned by
`_generate_with_retry` (responses are modelled by their extracted text;
`None` yields the empty string). -/
def getResponseText : Option String → List Char
  | some t => t.data
  | none => []

/-- `GeminiParser.parse_text`: empty input short-circuits to the default;
otherwise generate with retry, honour the rate-limit sentinel, decode the
response, and convert every raised error into a default result (with the
rate-limit flag when the error signal is a rate limit). -/
def GeminiParser.parseText (jp : JsonParseModel)
    (provider : Nat → Except String String) (text : String) : AIResult :=
  if (pstrip text.data).isEmpty then DEFAULT_RESULT
  else
    match (generateWithRetry provider).1 with
    | .ok (_, true) => DEFAULT_RATE_LIMITED
    | .ok (resp, false) =>
      match extractJson jp (getResponseText resp) with
      | .ok d => assembleResult d
      | .error _ => DEFAULT_RESULT
    | .error e =>
      if isRateLimitError e then DEFAULT_RATE_LIMITED else DEFAULT_RESULT

/-- `GeminiParser.parse` (image path): `Image.open` is modelled as an
`Except`-valued outcome; the rest mirrors `parse_text`. -/
def GeminiParser.parse (jp : JsonParseModel)
    (provider : Nat → Except String String) (imageOpen : Except String Unit) : AIResult :=
  match imageOpen with
  | .error e => if isRateLimitError e then DEFAULT_RATE_LIMITED else DEFAULT_RESULT
  | .ok _ =>
    match (generateWithRetry provider).1 with
    | .ok (_, true) => DEFAULT_RATE_LIMITED
    | .ok (resp, false) =>
      match extractJson jp (getResponseText resp) with
      | .ok d => assembleResult d
      | .error _ => DEFAULT_RESULT
    | .error e =>
      if isRateLimitError e then DEFAULT_RATE_LIMITED else DEFAULT_RESULT

/-! ## Webhook orchestrator (app/api/webhooks.py)

The Telegram service and the database are external collaborators, modelled
as an environment of `Except`-valued operations so that "an exception at
any step" can be expressed.  The handler's observable behaviour is its
returned acknowledgment together with a chronological event trace of the
messages it attempted to send and the transactions it committed. -/

/-- An inbound Telegram message, as far as the handler inspects it.
`photo` entries are the optional `file_id`s of the size variants;
`document` carries the declared mime type (`""` when absent) and an
optional `file_id`. -/
structure TgMessage where
  fromId : Option Int
  chatId : Option Int
  photo : Option (List (Option String))
  document : Option (String × Option String)
  text : Option String

/-- `telegram_service.get_file_id_from_message`: prefer the last (largest)
photo variant, else a document whose mime type starts with `image/`; all
lookup failures are caught inside the service and yield `None`. -/
def TelegramService.getFileId (update : Option TgMessage) : Option String :=
  match update with
  | none => none
  | some m =>
    match m.photo with
    | some ps => ps.getLast?.bind id
    | none =>
      match m.document with
      | some (mime, fid) => if startsW "image/".data mime.data then fid else none
      | none => none

/-- `telegram_service.get_text_from_message`. -/
def TelegramService.getText (update : Option TgMessage) : Option String :=
  update.bind (·.text)

/-- Python truthiness of `parsed_data.get("amount")`: missing, `None`,
`0` and `0.0` are all falsy. -/
def pyTruthy (a : Option ℚ) : Bool :=
  match a with
  | none => false
  | some q => q ≠ 0

/-- The extracted fields as the handler reads them out of either parser's
dictionary with `.get`. -/
structure PData where
  amount : Option ℚ
  currency : Option String
  merchant : Option String
  category : Option String
  deriving DecidableEq, Repr

/-- The deterministic parser's dictionary viewed through the handler's
`.get` calls. -/
def TxParsed.toPData (r : TxParsed) : PData :=
  { amount := some r.amount, currency := some r.currency,
    merchant := r.merchant, category := some r.category }

/-- The AI parser's dictionary viewed through the handler's `.get` calls. -/
def AIResult.toPData (r : AIResult) : PData :=
  { amount := r.amount, currency := r.currency,
    merchant := r.merchant, category := r.category }

/-- The row the handler tries to insert (`Transaction(...)` kwargs).
`amount` is stored through `str(...)`; it is modelled by the numeric value
it renders. -/
structure TxRecord where
  userId : Nat
  amount : Option ℚ
  currency : Option String
  merchant : Option String
  categoryId : Option Nat
  sourceImageUrl : Option String
  status : String
  deriving DecidableEq, Repr

/-- `Transaction(user_id=..., amount=str(...), currency=..., merchant=...,
category=parsed_data.get("category"), source_image_url=None,
status="PENDING")`.

Modelled ORM contract: the mapped class `Transaction`
(app/models/transaction.py) has a `category_id` column and a `category`
*relationship* to the mapped class `Category`; SQLAlchemy's declarative
constructor accepts the `category` keyword but a relationship attribute
only accepts a mapped `Category` instance or `None` — assigning a plain
string raises (at assignment via the `back_populates` event, or at flush),
so construction with a non-`None` extracted category fails. -/
def mkTransaction (userId : Nat) (pd : PData) : Except String TxRecord :=
  match pd.category with
  | some c => .error ("unmapped instance assigned to relationship category: " ++ c)
  | none =>
    .ok { userId := userId, amount := pd.amount, currency := pd.currency,
          merchant := pd.merchant, categoryId := none, sourceImageUrl := none,
          status := "PENDING" }

/-- Observable actions of the handler, in chronological order. -/
inductive TgEvent
  | sent (chat : Option Int) (text : String)
  | txCreated (t : TxRecord)
  deriving DecidableEq, Repr

/-- The external operations the handler invokes; each may raise. -/
structure Env where
  getOrCreateUser : Int → Except String Nat
  sendMessage : Option Int → String → Except String Bool
  downloadFile : String → Except String (Option Nat)
  getParser : Except String (Nat → Except String AIResult)
  dbPersist : TxRecord → Except String Unit

def MSG_PROCESSING : String := "⏳ Processing your invoice..."

def MSG_DOWNLOAD_FAILED : String := "❌ Failed to download image. Please try again."

def MSG_NO_AMOUNT : String :=
  "❌ Could not extract transaction amount from the image. Please try with a clearer image."

def MSG_CANT_UNDERSTAND : String :=
  "❌ Could not understand your message. Please send:\n• A payment screenshot/invoice image, or\n• Text like: 'add 15rs as coffee' or 'spent 50 on food'"

def MSG_USAGE : String :=
  "📸 Please send:\n• A payment screenshot or invoice image, or\n• Text like: 'add 15rs as coffee' or 'spent 50 on food'"

def MSG_GENERIC_ERROR : String :=
  "❌ An error occurred while processing your request. Please try again later."

/-- The confirmation summary (`✅ Tracked ...`).  Its exact rendering
(currency symbol, float formatting) is irrelevant to every claim; only the
fact that exactly one confirmation send happens is observable here. -/
def confirmationMsg (pd : PData) : String :=
  "✅ Tracked " ++ (match pd.category with | some c => "(" ++ c ++ ")" | none => "")

/-- One `send_message` call: the attempt is recorded in the trace; a raised
error propagates, a `False` result is ignored (as in the handler). -/
def doSend (env : Env) (chat : Option Int) (text : String) (evs : List TgEvent) :
    Except String Unit × List TgEvent :=
  let evs' := evs ++ [TgEvent.sent chat text]
  match env.sendMessage chat text with
  | .error e => (.error e, evs')
  | .ok _ => (.ok (), evs')

/-- Transaction creation, commit and confirmation (the tail of the `try`
block shared by the image and text paths). -/
def persistAndConfirm (env : Env) (chat : Option Int) (userId : Nat) (pd : PData)
    (evs : List TgEvent) : Except String Unit × List TgEvent :=
  match mkTransaction userId pd with
  | .error e => (.error e, evs)
  | .ok rec =>
    match env.dbPersist rec with
    | .error e => (.error e, evs)
    | .ok _ => doSend env chat (confirmationMsg pd) (evs ++ [TgEvent.txCreated rec])

/-- The body of the `try` block of `telegram_webhook`: every internal path
ends in `return {"ok": True}` (`Except.ok`); a raised exception escapes as
`Except.error` together with the events that already happened. -/
def webhookTry (env : Env) (update : Option TgMessage) : Except String Unit × List TgEvent :=
  match update with
  | none => (.ok (), [])
  | some msg =>
    match msg.fromId with
    | none => (.ok (), [])
    | some uid =>
      if uid = 0 then (.ok (), [])
      else
        match env.getOrCreateUser uid with
        | .error e => (.error e, [])
        | .ok userId =>
          match TelegramService.getFileId (some msg) with
          | some fid =>
            match doSend env msg.chatId MSG_PROCESSING [] with
            | (.error e, evs) => (.error e, evs)
            | (.ok _, evs) =>
              match env.downloadFile fid with
              | .error e => (.error e, evs)
              | .ok none => doSend env msg.chatId MSG_DOWNLOAD_FAILED evs
              | .ok (some bytes) =>
                match env.getParser with
                | .error e => (.error e, evs)
                | .ok parser =>
                  match parser bytes with
                  | .error e => (.error e, evs)
                  | .ok pd =>
                    if pyTruthy pd.amount then
                      persistAndConfirm env msg.chatId userId pd.toPData evs
                    else doSend env msg.chatId MSG_NO_AMOUNT evs
          | none =>
            match TelegramService.getText (some msg) with
            | some t =>
              match TextTransactionParser.parse t with
              | none => doSend env msg.chatId MSG_CANT_UNDERSTAND []
              | some pr => persistAndConfirm env msg.chatId userId pr.toPData []
            | none => doSend env msg.chatId MSG_USAGE []

/-- The handler's returned acknowledgment (`{"ok": True}`). -/
inductive WebhookResp
  | okTrue
  deriving DecidableEq, Repr

/-- `telegram_webhook`: run the `try` body; on any raised exception resolve
a chat id from the update and attempt one generic failure message (its own
failure swallowed by the inner bare `except`), then acknowledge; every path
returns `{"ok": True}`. -/
def telegramWebhook (env : Env) (update : Option TgMessage) : WebhookResp × List TgEvent :=
  match webhookTry env update with
  | (.ok _, evs) => (.okTrue, evs)
  | (.error _, evs) =>
    match update.bind (·.chatId) with
    | some c => (.okTrue, evs ++ [TgEvent.sent (some c) MSG_GENERIC_ERROR])
    | none => (.okTrue, evs)

/-- Case-insensitive substring test, used to state hint-freeness of a
provider message independently of the matcher. -/
def containsCI (n : List Char) : List Char → Bool
  | [] => ciStartsW n []
  | c :: t => ciStartsW n (c :: t) || containsCI n t

/-- A concrete photo update used to exercise the image path. -/
def uPhoto : TgMessage :=
  { fromId := some 7, chatId := some 5, photo := some [some "f1"],
    document := none, text := none }

/-- A concrete text update carrying a parseable expense message. -/
def uText : TgMessage :=
  { fromId := some 7, chatId := some 5, photo := none,
    document := none, text := some "add 15rs as coffee" }

/-- A benign environment: every external call succeeds, the user resolves
to id 1, and the image parser returns `pd`. -/
def imgEnv (pd : AIResult) : Env :=
  { getOrCreateUser := fun _ => .ok 1,
    sendMessage := fun _ _ => .ok true,
    downloadFile := fun _ => .ok (some 0),
    getParser := .ok (fun _ => .ok pd),
    dbPersist := fun _ => .ok () }

/-! ### The §8 input grammar

`"<prefix>? <digits>(rs|rupees|inr|₹)? <connector>? <word>(<rest>)?"`,
formalised over the spec's own token classes: `<digits>` a non-empty digit
string, `<word>` a non-empty lowercase-letter token that is not itself a
connector and does not begin with a currency marker (otherwise the sentence
is ambiguous and first-match-wins reads the marker), `<rest>` a non-empty
lowercase-letter-and-space string with letter endpoints. -/

/-- The currency markers of the §8 grammar. -/
def markerStrings : List String := ["rs", "rupees", "inr", "₹"]

/-- Well-formed `<word>` token of the §8 grammar. -/
def goodWord (w : List Char) : Prop :=
  w ≠ [] ∧ (∀ c ∈ w, lowerAlpha c = true) ∧
  startsW "rs".data w = false ∧ startsW "rupee".data w = false ∧
  startsW "inr".data w = false ∧ ∀ s ∈ connectorWords, w ≠ s.data

/-- Well-formed `<rest>` of the §8 grammar. -/
def goodRest (r : List Char) : Prop :=
  r ≠ [] ∧ (∀ c ∈ r, lowerAlpha c = true ∨ c = ' ') ∧
  (∀ c, r.head? = some c → lowerAlpha c = true) ∧
  (∀ c, r.getLast? = some c → lowerAlpha c = true)

/-- The optional `<prefix> ` part of a grammar sentence. -/
def optVerb : Option String → List Char
  | some v => v.data ++ [' ']
  | none => []

/-- The optional currency-marker part, attached to the digits. -/
def optMarker : Option String → List Char
  | some mk => mk.data
  | none => []

/-- The optional `<connector> ` part. -/
def optConn : Option String → List Char
  | some cn => cn.data ++ [' ']
  | none => []

/-- The optional ` <rest>` part. -/
def optRest : Option (List Char) → List Char
  | some rr => ' ' :: rr
  | none => []

/-- A sentence of the §8 grammar, with single spaces between the present
components and the currency marker attached to the digits. -/
def mkUtterance (p : Option String) (d : List Char) (m : Option String)
    (c : Option String) (w : List Char) (r : Option (List Char)) : List Char :=
  optVerb p ++ (d ++ (optMarker m ++ (' ' :: (optConn c ++ (w ++ optRest r)))))

/-- The §8 claim's expected extraction for such a sentence. -/
def expectedParse (d w : List Char) (r : Option (List Char)) : TxParsed :=
  { amount := (digitsToNat d : ℚ), currency := "INR",
    merchant := r.map (fun rr => String.mk rr),
    category := String.mk w, date := none }

/-! ## Theorems -/

lemma optVerb_none : optVerb none = [] := rfl

lemma optVerb_some (v : String) : optVerb (some v) = v.data ++ [' '] := rfl

lemma optMarker_none : optMarker none = [] := rfl

lemma optMarker_some (mk : String) : optMarker (some mk) = mk.data := rfl

lemma optConn_none : optConn none = [] := rfl

lemma optConn_some (cn : String) : optConn (some cn) = cn.data ++ [' '] := rfl

lemma optRest_none : optRest none = [] := rfl

lemma optRest_some (rr : List Char) : optRest (some rr) = ' ' :: rr := rfl

/-- `takeWhile`/`dropWhile` split an append at the first unsatisfying
character. -/
lemma takeWhile_append_sat (p : Char → Bool) (l r : List Char)
    (hl : ∀ c ∈ l, p c = true) (hr : ∀ c, r.head? = some c → p c = false) :
    (l ++ r).takeWhile p = l ∧ (l ++ r).dropWhile p = r := by
  induction l with
  | nil =>
    cases r with
    | nil => exact ⟨rfl, rfl⟩
    | cons c t =>
      simp [List.takeWhile_cons, List.dropWhile_cons, hr c rfl]
  | cons a l ih =>
    have ha := hl a (by simp)
    have ih' := ih (fun c hc => hl c (by simp [hc]))
    simp [List.takeWhile_cons, List.dropWhile_cons, ha, ih'.1, ih'.2]

lemma wsChar_cases {c : Char} (h : wsChar c = true) :
    c = ' ' ∨ c = '\t' ∨ c = '\n' ∨ c = '\r' ∨ c = '\x0b' ∨ c = '\x0c' := by
  have h' := h
  simp only [wsChar, Bool.or_eq_true, decide_eq_true_eq] at h'
  tauto

lemma isDig_of_wsChar {c : Char} (h : wsChar c = true) : isDig c = false := by
  rcases wsChar_cases h with rfl | rfl | rfl | rfl | rfl | rfl <;> rfl

lemma dot_beq_of_wsChar {c : Char} (h : wsChar c = true) : ('.' == c) = false := by
  rcases wsChar_cases h with rfl | rfl | rfl | rfl | rfl | rfl <;> rfl

lemma ne_dot_of_isDig {c : Char} (h : isDig c = true) : ¬ c = '.' := by
  intro hc; subst hc; exact absurd h (by decide)

lemma numVal_nonneg (g : List Char) : 0 ≤ numVal g := by
  unfold numVal
  split
  · exact Nat.cast_nonneg _
  · positivity

/-- Every branch of `parse_text` returns the plain default, the
rate-limited default, or an assembled success dictionary. -/
lemma parseText_cases (jp : JsonParseModel) (p : Nat → Except String String)
    (text : String) :
    GeminiParser.parseText jp p text = DEFAULT_RESULT ∨
    GeminiParser.parseText jp p text = DEFAULT_RATE_LIMITED ∨
    ∃ d, GeminiParser.parseText jp p text = assembleResult d := by
  unfold GeminiParser.parseText
  split
  · exact Or.inl rfl
  · split
    · exact Or.inr (Or.inl rfl)
    · split
      · exact Or.inr (Or.inr ⟨_, rfl⟩)
      · exact Or.inl rfl
    · split
      · exact Or.inr (Or.inl rfl)
      · exact Or.inl rfl

/-- Every branch of `parse` returns the plain default, the rate-limited
default, or an assembled success dictionary. -/
lemma parseImage_cases (jp : JsonParseModel) (p : Nat → Except String String)
    (img : Except String Unit) :
    GeminiParser.parse jp p img = DEFAULT_RESULT ∨
    GeminiParser.parse jp p img = DEFAULT_RATE_LIMITED ∨
    ∃ d, GeminiParser.parse jp p img = assembleResult d := by
  unfold GeminiParser.parse
  split
  · split
    · exact Or.inr (Or.inl rfl)
    · exact Or.inl rfl
  · split
    · exact Or.inr (Or.inl rfl)
    · split
      · exact Or.inr (Or.inr ⟨_, rfl⟩)
      · exact Or.inl rfl
    · split
      · exact Or.inr (Or.inl rfl)
      · exact Or.inl rfl

/-- C1: For every inbound Telegram webhook update (including malformed
ones, i.e. any shape of the optional fields, and any environment in which
any external step may raise at any point), `telegram_webhook` returns
exactly one successful acknowledgment `{"ok": True}` and never propagates
an exception: the handler is a total function whose first component is
always `okTrue`. -/
theorem C1_webhook_always_acknowledges (env : Env) (u : Option TgMessage) :
    (telegramWebhook env u).1 = WebhookResp.okTrue := by
  unfold telegramWebhook
  rcases h : webhookTry env u with ⟨e, evs⟩
  rcases e with e | v
  · rcases hc : u.bind (·.chatId) with _ | c <;> simp [hc]
  · simp

/-- C4: whenever the AI extractor (either `parse` or `parse_text`) returns
a result whose rate-limited flag is set, every other field equals the
provider-agnostic default: merchant, amount, date and category are null and
currency is "INR". -/
theorem C4_rate_limited_result_is_default (jp : JsonParseModel)
    (p : Nat → Except String String) (text : String) (img : Except String Unit) :
    DEFAULT_RATE_LIMITED =
      { merchant := none, amount := none, currency := some "INR", date := none,
        category := none, rateLimited := true } ∧
    ((GeminiParser.parseText jp p text).rateLimited = true →
      GeminiParser.parseText jp p text = DEFAULT_RATE_LIMITED) ∧
    ((GeminiParser.parse jp p img).rateLimited = true →
      GeminiParser.parse jp p img = DEFAULT_RATE_LIMITED) := by
  refine ⟨rfl, ?_, ?_⟩
  · intro h
    rcases parseText_cases jp p text with hc | hc | ⟨d, hc⟩
    · rw [hc] at h; simp [DEFAULT_RESULT] at h
    · exact hc
    · rw [hc] at h; simp [assembleResult] at h
  · intro h
    rcases parseImage_cases jp p img with hc | hc | ⟨d, hc⟩
    · rw [hc] at h; simp [DEFAULT_RESULT] at h
    · exact hc
    · rw [hc] at h; simp [assembleResult] at h

/-- Witness for C4 at a concrete rate-limited run. -/
theorem C4_witness :
    GeminiParser.parseText (fun _ => none) (fun _ => Except.error "429") "hi" =
      DEFAULT_RATE_LIMITED :=
  (C4_rate_limited_result_is_default (fun _ => none) (fun _ => Except.error "429")
    "hi" (Except.ok ())).2.1 (by decide)

/-- C3: the AI extractor's retry policy.  A first provider call rejected
with a rate-limit signal is retried exactly once (two provider calls in
total); if the retry is also rate-limited, both `parse` and `parse_text`
return the all-null default marked rate-limited instead of raising; a
provider error that is not a rate-limit signal is not retried (one call)
and both extractor entry points return the all-null default without
raising. -/
theorem C3_retry_policy (jp : JsonParseModel) (p : Nat → Except String String)
    (text : String) (e : String) :
    (p 0 = .error e → isRateLimitError e = true → (generateWithRetry p).2 = 2) ∧
    (∀ e2, p 0 = .error e → isRateLimitError e = true →
      p 1 = .error e2 → isRateLimitError e2 = true →
      (generateWithRetry p).1 = .ok (none, true) ∧
      ((pstrip text.data).isEmpty = false →
        GeminiParser.parseText jp p text = DEFAULT_RATE_LIMITED) ∧
      GeminiParser.parse jp p (.ok ()) = DEFAULT_RATE_LIMITED) ∧
    (p 0 = .error e → isRateLimitError e = false →
      (generateWithRetry p).2 = 1 ∧ (generateWithRetry p).1 = .error e ∧
      GeminiParser.parseText jp p text = DEFAULT_RESULT ∧
      GeminiParser.parse jp p (.ok ()) = DEFAULT_RESULT) := by
  refine ⟨?_, ?_, ?_⟩
  · intro h0 hrl
    rcases h1 : p 1 with e2 | r
    · simp only [generateWithRetry, h0, h1, hrl, if_true]
      split <;> simp
    · simp [generateWithRetry, h0, h1, hrl]
  · intro e2 h0 hrl h1 hrl2
    refine ⟨by simp [generateWithRetry, h0, h1, hrl, hrl2], ?_, ?_⟩
    · intro hne
      unfold GeminiParser.parseText
      simp [hne, generateWithRetry, h0, h1, hrl, hrl2]
    · unfold GeminiParser.parse
      simp [generateWithRetry, h0, h1, hrl, hrl2]
  · intro h0 hrl
    refine ⟨by simp [generateWithRetry, h0, hrl], by simp [generateWithRetry, h0, hrl], ?_, ?_⟩
    · unfold GeminiParser.parseText
      by_cases hemp : (pstrip text.data).isEmpty = true <;>
        simp [hemp, generateWithRetry, h0, hrl]
    · unfold GeminiParser.parse
      simp [generateWithRetry, h0, hrl]

/-- Witness for C3 at concrete provider behaviours. -/
theorem C3_witness :
    GeminiParser.parseText (fun _ => none)
      (fun _ => Except.error "429 RESOURCE_EXHAUSTED") "spent 50" =
      DEFAULT_RATE_LIMITED :=
  (((C3_retry_policy (fun _ => none) (fun _ => Except.error "429 RESOURCE_EXHAUSTED")
      "spent 50" "429 RESOURCE_EXHAUSTED").2.1 "429 RESOURCE_EXHAUSTED"
      rfl (by decide) rfl (by decide)).2.1) (by decide)

/-- C9: whenever the deterministic extractor returns a result, its amount
is non-negative (an unsigned magnitude), its currency is exactly "INR" and
its date is null. -/
theorem C9_deterministic_invariants (s : String) (r : TxParsed)
    (h : TextTransactionParser.parse s = some r) :
    0 ≤ r.amount ∧ r.currency = "INR" ∧ r.date = none := by
  unfold TextTransactionParser.parse parseCore at h
  by_cases he : (pstrip s.data).isEmpty = true
  · simp [he] at h
  · simp only [he, Bool.false_eq_true, if_false] at h
    rcases hf : findAmount (stripPrefixLoop ((pstrip s.data).map Char.toLower)).1 with
      _ | ⟨g, rem⟩
    · rw [hf] at h
      exact absurd h (by simp)
    · rw [hf] at h
      simp only [Option.some.injEq] at h
      subst h
      exact ⟨numVal_nonneg g, rfl, rfl⟩

/-- Witness for C9 at the literal input "42". -/
theorem C9_witness :
    (0 : ℚ) ≤ (42 : ℚ) ∧ ("INR" : String) = "INR" ∧ (none : Option String) = none :=
  C9_deterministic_invariants "42"
    { amount := 42, currency := "INR", merchant := none,
      category := "Uncategorized", date := none } (by decide)

/-- C10: on the image path the usable-amount validation is a Python
truthiness test, so an extraction with amount exactly 0 behaves exactly
like a missing amount: the "could not extract amount" message is sent, the
event terminates with the acknowledgment, and no transaction is
persisted. -/
theorem C10_zero_amount_treated_as_missing (pd : AIResult) (h : pd.amount = some 0) :
    telegramWebhook (imgEnv pd) (some uPhoto) =
      telegramWebhook (imgEnv { pd with amount := none }) (some uPhoto) ∧
    telegramWebhook (imgEnv pd) (some uPhoto) =
      (WebhookResp.okTrue,
        [TgEvent.sent (some 5) MSG_PROCESSING, TgEvent.sent (some 5) MSG_NO_AMOUNT]) := by
  constructor <;>
    simp [telegramWebhook, webhookTry, imgEnv, uPhoto, doSend,
      TelegramService.getFileId, TelegramService.getText, pyTruthy, h]

/-- Witness for C10 at a concrete zero-amount extraction. -/
theorem C10_witness :
    telegramWebhook (imgEnv { DEFAULT_RESULT with amount := some 0 }) (some uPhoto) =
      (WebhookResp.okTrue,
        [TgEvent.sent (some 5) MSG_PROCESSING, TgEvent.sent (some 5) MSG_NO_AMOUNT]) :=
  (C10_zero_amount_treated_as_missing { DEFAULT_RESULT with amount := some 0 } rfl).2

/-- C6 counterexample: the verb-stripping loop iterates over the whole
priority list and keeps stripping, so the input "add spent 50" has two verb
tokens removed, contradicting "at most one token stripped". -/
theorem C6_counterexample :
    (stripPrefixLoop "add spent 50".data).2 = 2 ∧
    (stripPrefixLoop "add spent 50".data).1 = "50".data ∧
    ¬ (stripPrefixLoop "add spent 50".data).2 ≤ 1 := by decide

lemma foldl_strip_count_le (vs : List String) (s : List Char) (n : Nat) :
    (vs.foldl stripStep (s, n)).2 ≤ n + vs.length := by
  induction vs generalizing s n with
  | nil => simp
  | cons v vs ih =>
    simp only [List.foldl_cons, List.length_cons, stripStep]
    by_cases h : startsW v.data s = true
    · simp only [h, if_true]
      exact le_trans (ih _ _) (by omega)
    · simp only [h, Bool.false_eq_true, if_false]
      exact le_trans (ih s n) (by omega)

/-- C6 amended: the normalization strips, for each verb of the fixed
priority list in order, at most one leading occurrence — so several verb
tokens may be removed from one input, but never more than the length of
the list (six). -/
theorem C6_amended_at_most_one_per_verb (s : List Char) :
    (stripPrefixLoop s).2 ≤ commonPrefixes.length := by
  unfold stripPrefixLoop
  simpa using foldl_strip_count_le commonPrefixes s 0

/-! ### C5: retry-delay computation -/

lemma ciStartsW_self_append (p z : List Char) : ciStartsW p (p ++ z) = true := by
  induction p with
  | nil => simp [ciStartsW]
  | cons a p ih => simp [ciStartsW, ih]

lemma matchRetryAt_none_of_head (c : Char) (t : List Char) (h : ¬ c.toLower = 'r') :
    matchRetryAt (c :: t) = none := by
  have hr : "retry in ".data = 'r' :: "etry in ".data := rfl
  have hci : ciStartsW "retry in ".data (c :: t) = false := by
    rw [hr]
    simp [ciStartsW]
    intro hc
    exact absurd ((by exact hc.symm) : c.toLower = Char.toLower 'r') h
  unfold matchRetryAt
  simp [hci]

lemma searchRetry_cons_hit {c : Char} {t : List Char} {g : List Char}
    (h : matchRetryAt (c :: t) = some g) : searchRetry (c :: t) = some g := by
  simp [searchRetry, h]

lemma searchRetry_append_no_r (a rest : List Char) (ha : ∀ c ∈ a, ¬ c.toLower = 'r') :
    searchRetry (a ++ rest) = searchRetry rest := by
  induction a with
  | nil => rfl
  | cons c a ih =>
    have hc := ha c (by simp)
    have ih' := ih (fun x hx => ha x (by simp [hx]))
    simp [searchRetry, matchRetryAt_none_of_head c _ hc, ih']

lemma searchRetry_none_of_not_contains (s : List Char)
    (h : containsCI "retry in ".data s = false) : searchRetry s = none := by
  induction s with
  | nil => rfl
  | cons c t ih =>
    simp only [containsCI, Bool.or_eq_false_iff] at h
    have hm : matchRetryAt (c :: t) = none := by
      unfold matchRetryAt
      simp [h.1]
    simp [searchRetry, hm, ih h.2]

/-- Computation of the retry-hint matcher at the start of a hint. -/
lemma matchRetryAt_hit (d f sp post : List Char)
    (hd1 : d ≠ []) (hd2 : ∀ c ∈ d, isDig c = true)
    (hf : f = [] ∨ ∃ f', f = '.' :: f' ∧ f' ≠ [] ∧ ∀ c ∈ f', isDig c = true)
    (hsp : ∀ c ∈ sp, wsChar c = true) :
    matchRetryAt ("retry in ".data ++ (d ++ (f ++ (sp ++ 's' :: post)))) =
      some (d ++ f) := by
  have hdrop :
      ("retry in ".data ++ (d ++ (f ++ (sp ++ 's' :: post)))).drop 9 =
        d ++ (f ++ (sp ++ 's' :: post)) := by
    have h9 : ("retry in ".data).length = 9 := rfl
    rw [← h9, List.drop_left]
  have hsps : ∀ c, (sp ++ 's' :: post).head? = some c → isDig c = false := by
    intro c hc
    cases sp with
    | nil =>
      simp at hc
      rw [← hc]
      rfl
    | cons c0 t0 =>
      simp at hc
      rw [← hc]
      exact isDig_of_wsChar (hsp c0 (by simp))
  have hfh : ∀ c, (f ++ (sp ++ 's' :: post)).head? = some c → isDig c = false := by
    rcases hf with rfl | ⟨f', rfl, _, _⟩
    · simpa using hsps
    · intro c hc
      simp at hc
      rw [← hc]
      rfl
  have hsplit := takeWhile_append_sat isDig d (f ++ (sp ++ 's' :: post)) hd2 hfh
  have hdropws : (sp ++ 's' :: post).dropWhile wsChar = 's' :: post :=
    (takeWhile_append_sat wsChar sp ('s' :: post) hsp
      (by intro c hc; simp at hc; rw [← hc]; rfl)).2
  have hde : d.isEmpty = false := by simpa [List.isEmpty_iff] using hd1
  unfold matchRetryAt
  rw [if_pos (ciStartsW_self_append _ _), hdrop]
  unfold matchRetryCore
  rw [hsplit.1, hsplit.2, if_neg (by simp [hde])]
  rcases hf with rfl | ⟨f', rfl, hf1, hf2⟩
  · -- no fraction: the optional group is not taken
    rw [List.nil_append]
    have hdot : startsW ['.'] (sp ++ 's' :: post) = false := by
      cases sp with
      | nil => rfl
      | cons c0 t0 => simp [startsW, dot_beq_of_wsChar (hsp c0 (by simp))]
    unfold matchRetryTail
    rw [hdot]
    simp only [Bool.false_and, Bool.false_eq_true, if_false]
    unfold matchRetryEnd
    rw [hdropws]
    simp
  · -- fraction present: the optional group is taken greedily
    have hfsplit := takeWhile_append_sat isDig f' (sp ++ 's' :: post) hf2 hsps
    have hfe : f'.isEmpty = false := by simpa [List.isEmpty_iff] using hf1
    unfold matchRetryTail
    rw [List.cons_append]
    rw [show List.drop 1 ('.' :: (f' ++ (sp ++ 's' :: post))) = f' ++ (sp ++ 's' :: post)
      from rfl]
    rw [hfsplit.1, hfsplit.2, hfe]
    rw [show startsW ['.'] ('.' :: (f' ++ (sp ++ 's' :: post))) = true by simp [startsW]]
    simp only [Bool.not_false, Bool.true_and, if_true]
    unfold matchRetryEnd
    rw [hdropws]
    simp

/-- C5 counterexample: at the concrete hint "retry in 5s" the code computes
6, while the claimed "rounded up, capped" delay is 5. -/
theorem C5_counterexample :
    parseRetrySeconds "please retry in 5s" = 6 ∧
    min (⌈(5 : ℚ)⌉.toNat) RETRY_DELAY_MAX = 5 ∧
    parseRetrySeconds "please retry in 5s" ≠ min (⌈(5 : ℚ)⌉.toNat) RETRY_DELAY_MAX := by
  have h1 : parseRetrySeconds "please retry in 5s" = 6 := by decide
  have h2 : min (⌈(5 : ℚ)⌉.toNat) RETRY_DELAY_MAX = 5 := by
    have hc : ⌈(5 : ℚ)⌉ = 5 := by norm_num
    rw [hc]
    rfl
  exact ⟨h1, h2, by rw [h1, h2]; decide⟩

/-- C5 amended: for a message containing a "retry in N s" hint (with no
earlier overlapping match: the text before the hint contains no character
that lowercases to 'r'), the computed delay is the hint's integer part
plus one, capped at 60; a message with no occurrence of "retry in "
(case-insensitively) yields the 60-second maximum. -/
theorem C5_amended_delay_formula :
    (∀ (a d f sp post : List Char) (msg : String),
      (∀ c ∈ a, ¬ c.toLower = 'r') →
      d ≠ [] → (∀ c ∈ d, isDig c = true) →
      (f = [] ∨ ∃ f', f = '.' :: f' ∧ f' ≠ [] ∧ ∀ c ∈ f', isDig c = true) →
      (∀ c ∈ sp, wsChar c = true) →
      msg.data = a ++ ("retry in ".data ++ (d ++ (f ++ (sp ++ 's' :: post)))) →
      parseRetrySeconds msg = min (digitsToNat d + 1) RETRY_DELAY_MAX) ∧
    (∀ m : String, containsCI "retry in ".data m.data = false →
      parseRetrySeconds m = RETRY_DELAY_MAX) := by
  constructor
  · intro a d f sp post msg ha hd1 hd2 hf hsp hmsg
    have hhit := matchRetryAt_hit d f sp post hd1 hd2 hf hsp
    have hcons : "retry in ".data ++ (d ++ (f ++ (sp ++ 's' :: post))) =
        'r' :: ("etry in ".data ++ (d ++ (f ++ (sp ++ 's' :: post)))) := rfl
    have hsearch : searchRetry msg.data = some (d ++ f) := by
      rw [hmsg, searchRetry_append_no_r a _ ha, hcons]
      exact searchRetry_cons_hit (by rw [← hcons]; exact hhit)
    have hgroup : (d ++ f).takeWhile (fun c => !decide (c = '.')) = d := by
      rcases hf with rfl | ⟨f', rfl, _, _⟩
      · have := (takeWhile_append_sat (fun c => !decide (c = '.')) d []
          (fun c hc => by simpa using ne_dot_of_isDig (hd2 c hc))
          (by intro c hc; simp at hc)).1
        simpa using this
      · exact (takeWhile_append_sat (fun c => !decide (c = '.')) d ('.' :: f')
          (fun c hc => by simpa using ne_dot_of_isDig (hd2 c hc))
          (by intro c hc; simp at hc; simp [← hc])).1
    unfold parseRetrySeconds
    rw [hsearch]
    simp [hgroup]
  · intro m hm
    unfold parseRetrySeconds
    rw [searchRetry_none_of_not_contains m.data hm]

/-- Witness for the amended C5 at a concrete hinted message and a concrete
hint-free message. -/
theorem C5_amended_witness :
    parseRetrySeconds "retry in 7.5s!" = min (digitsToNat "7".data + 1) RETRY_DELAY_MAX ∧
    parseRetrySeconds "quota exhausted" = RETRY_DELAY_MAX := by
  constructor
  · exact C5_amended_delay_formula.1 [] "7".data ".5".data [] "!".data
      "retry in 7.5s!" (by simp) (by decide) (by decide)
      (Or.inr ⟨"5".data, rfl, by decide, by decide⟩) (by simp) (by decide)
  · exact C5_amended_delay_formula.2 "quota exhausted" (by decide)

/-! ### C7: the persistence step -/

/-- C7: at the failing input (a benign environment and the text message
"add 15rs as coffee"), the deterministic extractor succeeds with category
"coffee", but the handler's `Transaction(...)` construction assigns that
string to the ORM *relationship* attribute `category` (the model has only a
`category_id` column), which raises — so no transaction is persisted and
the generic failure message is sent instead of the claimed PENDING
transaction. -/
theorem C7_category_kwarg_breaks_persistence :
    TextTransactionParser.parse "add 15rs as coffee" =
      some { amount := 15, currency := "INR", merchant := none,
             category := "coffee", date := none } ∧
    mkTransaction 1 (TxParsed.toPData
      { amount := 15, currency := "INR", merchant := none,
        category := "coffee", date := none }) =
      Except.error "unmapped instance assigned to relationship category: coffee" ∧
    telegramWebhook (imgEnv DEFAULT_RESULT) (some uText) =
      (WebhookResp.okTrue, [TgEvent.sent (some 5) MSG_GENERIC_ERROR]) :=
  ⟨by decide, rfl, by decide⟩

/-! ### C8: fence stripping -/

lemma startsW_self_append (p z : List Char) : startsW p (p ++ z) = true := by
  induction p with
  | nil => simp [startsW]
  | cons a p ih => simp [startsW, ih]

lemma splitNl_ne_nil (s : List Char) : splitNl s ≠ [] := by
  cases s with
  | nil => simp [splitNl]
  | cons c t =>
    by_cases h : c = '\n'
    · simp [splitNl, h]
    · simp only [splitNl, h, if_false]
      rcases hs : splitNl t with _ | ⟨l, ls⟩ <;> simp

lemma splitNl_append_nl (a b : List Char) :
    splitNl (a ++ '\n' :: b) = splitNl a ++ splitNl b := by
  induction a with
  | nil => simp [splitNl]
  | cons c a ih =>
    by_cases h : c = '\n'
    · subst h
      simp [splitNl, ih]
    · rcases ha : splitNl a with _ | ⟨l, ls⟩
      · exact absurd ha (splitNl_ne_nil a)
      · rw [ha] at ih
        simp [splitNl, h, ih, ha]

lemma splitNl_no_nl (l : List Char) (h : '\n' ∉ l) : splitNl l = [l] := by
  induction l with
  | nil => rfl
  | cons c t ih =>
    have hc : ¬ c = '\n' := fun hc => h (by simp [hc])
    simp [splitNl, hc, ih (fun ht => h (by simp [ht]))]

lemma joinNl_splitNl (s : List Char) : joinNl (splitNl s) = s := by
  induction s with
  | nil => rfl
  | cons c t ih =>
    by_cases h : c = '\n'
    · subst h
      rcases ht : splitNl t with _ | ⟨l, ls⟩
      · exact absurd ht (splitNl_ne_nil t)
      · rw [ht] at ih
        simp [splitNl, joinNl, ht, ih]
    · rcases ht : splitNl t with _ | ⟨l, ls⟩
      · exact absurd ht (splitNl_ne_nil t)
      · rw [ht] at ih
        cases ls with
        | nil => simp [splitNl, h, ht, joinNl] at ih ⊢; simp [ih]
        | cons x xs => simp [splitNl, h, ht, joinNl] at ih ⊢; simp [ih]

lemma pstrip_eq_self (s : List Char)
    (h1 : ∀ c, s.head? = some c → wsChar c = false)
    (h2 : ∀ c, s.getLast? = some c → wsChar c = false) : pstrip s = s := by
  have hl : trimLeft s = s := by
    cases s with
    | nil => rfl
    | cons c t => simp [trimLeft, List.dropWhile_cons, h1 c rfl]
  have hr : trimRight s = s := by
    unfold trimRight
    rcases hs : s.reverse with _ | ⟨c, t⟩
    · simpa using congrArg List.reverse hs
    · have hc : s.getLast? = some c := by
        rw [← List.head?_reverse, hs]
        rfl
      rw [List.dropWhile_cons, h2 c hc]
      simp [← hs]
  unfold pstrip
  rw [hl, hr]

/-- The fence-stripping step recovers exactly the fenced content. -/
lemma stripFences_mkFenced (lang j : List Char) (hl : '\n' ∉ lang) :
    stripFences (mkFenced lang j) = j := by
  have hstrip : pstrip (mkFenced lang j) = mkFenced lang j := by
    apply pstrip_eq_self
    · intro c hc
      rw [show mkFenced lang j =
        '`' :: (("``".data ++ lang) ++ '\n' :: (j ++ '\n' :: "```".data)) from rfl] at hc
      cases hc
      rfl
    · intro c hc
      unfold mkFenced at hc
      rw [List.getLast?_append_cons] at hc
      rw [show ('\n' :: (j ++ '\n' :: "```".data)) = ('\n' :: j) ++ '\n' :: "```".data
        from rfl, List.getLast?_append_cons] at hc
      cases hc
      rfl
  have hsplit : splitNl (mkFenced lang j) =
      ("```".data ++ lang) :: (splitNl j ++ ["```".data]) := by
    unfold mkFenced
    rw [splitNl_append_nl, splitNl_append_nl, splitNl_no_nl _ (by simpa using hl)]
    rfl
  have hsw : startsW "```".data (mkFenced lang j) = true := by
    rw [show mkFenced lang j =
      "```".data ++ (lang ++ '\n' :: (j ++ '\n' :: "```".data)) from rfl]
    exact startsW_self_append _ _
  unfold stripFences
  rw [hstrip, if_pos hsw, hsplit]
  simp only [dropFirstFence, if_pos (startsW_self_append "```".data lang)]
  simp only [dropLastFence, List.getLast?_concat]
  rw [if_pos (by rfl), List.dropLast_concat, joinNl_splitNl]

/-- C8: for a provider response that is a JSON text wrapped in Markdown
code fences, the fence-stripping step recovers exactly the enclosed text
(hence the enclosed JSON value when it decodes); and when the text left
after fence-stripping is not valid JSON, `parse_text` returns the all-null
default result instead of raising. -/
theorem C8_fence_stripping_and_soft_failure (jp : JsonParseModel)
    (p : Nat → Except String String) (lang j : List Char) (v : JsonObj)
    (raw text : String) :
    ('\n' ∉ lang → stripFences (mkFenced lang j) = j) ∧
    ('\n' ∉ lang → jp j = some v →
      extractJson jp (mkFenced lang j) = .ok v) ∧
    ((pstrip text.data).isEmpty = false → p 0 = .ok raw →
      jp (stripFences raw.data) = none →
      GeminiParser.parseText jp p text = DEFAULT_RESULT) := by
  refine ⟨stripFences_mkFenced lang j, ?_, ?_⟩
  · intro hl hv
    unfold extractJson
    rw [stripFences_mkFenced lang j hl, hv]
  · intro hne h0 hjp
    unfold GeminiParser.parseText
    rw [if_neg (by simp [hne])]
    simp [generateWithRetry, h0, extractJson, getResponseText, hjp]

/-- Witness for C8 at a concrete fenced response and a concrete non-JSON
response. -/
theorem C8_witness :
    extractJson
        (fun s => if s = "42".data then some (⟨none, none, none, none, none⟩ : JsonObj)
          else none)
        (mkFenced "json".data "42".data) =
      Except.ok (⟨none, none, none, none, none⟩ : JsonObj) ∧
    GeminiParser.parseText (fun _ => none) (fun _ => Except.ok "nope") "x" =
      DEFAULT_RESULT := by
  constructor
  · exact (C8_fence_stripping_and_soft_failure
      (fun s => if s = "42".data then some (⟨none, none, none, none, none⟩ : JsonObj)
        else none)
      (fun _ => Except.ok "nope") "json".data "42".data
      ⟨none, none, none, none, none⟩ "nope" "x").2.1 (by decide) (by simp)
  · exact (C8_fence_stripping_and_soft_failure (fun _ => none)
      (fun _ => Except.ok "nope") "json".data "42".data
      ⟨none, none, none, none, none⟩ "nope" "x").2.2 (by decide) rfl rfl

/-! ### C2: character classes and prefix tests -/

lemma isDig_bounds {c : Char} (h : isDig c = true) : 48 ≤ c.toNat ∧ c.toNat ≤ 57 := by
  simpa [isDig] using h

lemma lowerAlpha_bounds {c : Char} (h : lowerAlpha c = true) :
    97 ≤ c.toNat ∧ c.toNat ≤ 122 := by
  simpa [lowerAlpha] using h

lemma beq_false_of_toNat_ne {a b : Char} (h : a.toNat ≠ b.toNat) : (a == b) = false :=
  beq_eq_false_iff_ne.mpr (fun hab => h (by rw [hab]))

lemma wsChar_toNat {c : Char} (h : wsChar c = true) : c.toNat ≤ 32 := by
  rcases wsChar_cases h with rfl | rfl | rfl | rfl | rfl | rfl <;> decide

lemma wsChar_of_isDig {c : Char} (h : isDig c = true) : wsChar c = false := by
  cases hw : wsChar c with
  | false => rfl
  | true =>
    have h1 := wsChar_toNat hw
    have h2 := (isDig_bounds h).1
    omega

lemma wsChar_of_lowerAlpha {c : Char} (h : lowerAlpha c = true) : wsChar c = false := by
  cases hw : wsChar c with
  | false => rfl
  | true =>
    have h1 := wsChar_toNat hw
    have h2 := (lowerAlpha_bounds h).1
    omega

lemma isDig_of_lowerAlpha {c : Char} (h : lowerAlpha c = true) : isDig c = false := by
  cases hd : isDig c with
  | false => rfl
  | true =>
    have h1 := (isDig_bounds hd).2
    have h2 := (lowerAlpha_bounds h).1
    omega

lemma sepChar_of_lowerAlpha {c : Char} (h : lowerAlpha c = true) : sepChar c = false := by
  cases hs : sepChar c with
  | false => rfl
  | true =>
    simp only [sepChar, Bool.or_eq_true, decide_eq_true_eq] at hs
    rcases hs with rfl | hw
    · exact absurd h (by decide)
    · rw [wsChar_of_lowerAlpha h] at hw
      cases hw

lemma toLower_fix {c : Char} (h : ¬ (c.toNat ≥ 65 ∧ c.toNat ≤ 90)) : c.toLower = c := by
  simp only [Char.toLower]
  rw [if_neg h]

lemma toLower_fix_isDig {c : Char} (h : isDig c = true) : c.toLower = c :=
  toLower_fix (by have := isDig_bounds h; omega)

lemma toLower_fix_lowerAlpha {c : Char} (h : lowerAlpha c = true) : c.toLower = c :=
  toLower_fix (by have := lowerAlpha_bounds h; omega)

lemma map_toLower_fix (l : List Char) (h : ∀ c ∈ l, c.toLower = c) :
    l.map Char.toLower = l := by
  induction l with
  | nil => rfl
  | cons a t ih => simp [h a (by simp), ih (fun c hc => h c (by simp [hc]))]

lemma dropWhile_cons_false {p : Char → Bool} {c : Char} {t : List Char}
    (h : p c = false) : (c :: t).dropWhile p = c :: t := by
  simp [List.dropWhile_cons, h]

lemma startsW_append_sep (rest : List Char)
    (hrest : rest = [] ∨ ∃ r', rest = ' ' :: r') :
    ∀ (t w : List Char), (∀ c ∈ t, ¬ c = ' ') → startsW t w = false →
      startsW t (w ++ rest) = false := by
  intro t
  induction t with
  | nil =>
    intro w ht hw
    simp [startsW] at hw
  | cons a ts ih =>
    intro w ht hw
    cases w with
    | nil =>
      rcases hrest with rfl | ⟨r', rfl⟩
      · rfl
      · have ha : (a == ' ') = false := beq_eq_false_iff_ne.mpr (ht a (by simp))
        simp [startsW, ha]
    | cons b w' =>
      rw [List.cons_append]
      cases hab : (a == b) with
      | false => simp [startsW, hab]
      | true =>
        have hw' : startsW ts w' = false := by simpa [startsW, hab] using hw
        simp [startsW, hab,
          ih w' (fun c hc => ht c (by simp [hc])) hw']

lemma startsW_conn_false (rest : List Char)
    (hrest : rest = [] ∨ ∃ rr, rest = ' ' :: rr) :
    ∀ (u w : List Char), (∀ c ∈ u, ¬ c = ' ') → (∀ c ∈ w, ¬ c = ' ') → w ≠ u →
      startsW (u ++ [' ']) (w ++ rest) = false := by
  intro u
  induction u with
  | nil =>
    intro w hu hw hne
    cases w with
    | nil => exact absurd rfl hne
    | cons b w' =>
      have hb : (' ' == b) = false :=
        beq_eq_false_iff_ne.mpr (fun h => hw b (by simp) h.symm)
      simp [startsW, hb]
  | cons a u' ih =>
    intro w hu hw hne
    cases w with
    | nil =>
      rcases hrest with rfl | ⟨rr, rfl⟩
      · rfl
      · have ha : (a == ' ') = false := beq_eq_false_iff_ne.mpr (hu a (by simp))
        simp [startsW, ha]
    | cons b w' =>
      cases hab : (a == b) with
      | false => simp [startsW, hab]
      | true =>
        have hne' : w' ≠ u' := by
          intro he
          exact hne (by rw [he, show b = a from (eq_of_beq hab).symm])
        simp [startsW, hab,
          ih w' (fun c hc => hu c (by simp [hc])) (fun c hc => hw c (by simp [hc])) hne']

/-! ### C2: the amount matchers -/

lemma matchNumAt_digits (d rest : List Char) (hd1 : d ≠ [])
    (hd2 : ∀ c ∈ d, isDig c = true)
    (hhead : ∀ c, rest.head? = some c → isDig c = false ∧ ('.' == c) = false) :
    matchNumAt (d ++ rest) = some (d, rest) := by
  have hsp := takeWhile_append_sat isDig d rest hd2 (fun c hc => (hhead c hc).1)
  have hdot : startsW ['.'] rest = false := by
    cases rest with
    | nil => rfl
    | cons c t => simp [startsW, (hhead c rfl).2]
  unfold matchNumAt
  rw [hsp.1, hsp.2, if_neg (by simpa [List.isEmpty_iff] using hd1)]
  unfold numTail
  rw [hdot]
  simp

lemma matchNumAt_none_head (s : List Char)
    (h : ∀ c, s.head? = some c → isDig c = false) : matchNumAt s = none := by
  cases s with
  | nil => rfl
  | cons c t => simp [matchNumAt, List.takeWhile_cons, h c rfl]

lemma searchAt_head_hit {m : List Char → Option (List Char × List Char)}
    {s : List Char} {g a : List Char} (hs : s ≠ []) (hm : m s = some (g, a)) :
    searchAt m s = some ([], g, a) := by
  cases s with
  | nil => exact absurd rfl hs
  | cons c t => simp [searchAt, hm]

lemma searchAt_cons_miss {m : List Char → Option (List Char × List Char)}
    {c : Char} {t : List Char} (hm : m (c :: t) = none) :
    searchAt m (c :: t) = (searchAt m t).map fun x => (c :: x.1, x.2.1, x.2.2) := by
  simp [searchAt, hm]

lemma searchAt_nil {m : List Char → Option (List Char × List Char)}
    (hm : m [] = none) : searchAt m [] = none := by
  simp [searchAt, hm]

lemma matchAlt1At_none_word (w rest : List Char) (hw : goodWord w)
    (hrest : rest = [] ∨ ∃ rr, rest = ' ' :: rr) :
    matchAlt1At (w ++ rest) = none := by
  obtain ⟨hw0, hwa, hrs, hrup, hinr, _⟩ := hw
  have h1 : startsW "rs".data (w ++ rest) = false :=
    startsW_append_sep rest hrest _ w (by decide) hrs
  have h2 : startsW "rupee".data (w ++ rest) = false :=
    startsW_append_sep rest hrest _ w (by decide) hrup
  have h3 : startsW "inr".data (w ++ rest) = false :=
    startsW_append_sep rest hrest _ w (by decide) hinr
  have h4 : startsW "₹".data (w ++ rest) = false := by
    cases w with
    | nil => exact absurd rfl hw0
    | cons b w' =>
      have hb : ('₹' == b) = false := by
        apply beq_false_of_toNat_ne
        have := (lowerAlpha_bounds (hwa b (by simp))).2
        intro he
        rw [show ('₹'.toNat) = 8377 from rfl] at he
        omega
      simp [startsW, hb]
  simp [matchAlt1At, h1, h2, h3, h4]

lemma matchAlt3At_none_of_alt1 {s : List Char} (h : matchAlt1At s = none) :
    matchAlt3At s = none := by
  by_cases h1 : startsW "rs".data s = true
  · rw [matchAlt1At, if_pos h1] at h
    exact absurd h (by simp)
  · by_cases h2 : startsW "rupee".data s = true
    · rw [matchAlt1At, if_neg h1, if_pos h2] at h
      by_cases h3 : startsW "s".data (s.drop 5) = true
      · rw [if_pos h3] at h
        exact absurd h (by simp)
      · rw [if_neg h3] at h
        exact absurd h (by simp)
    · by_cases h3 : startsW "inr".data s = true
      · rw [matchAlt1At, if_neg h1, if_neg h2, if_pos h3] at h
        exact absurd h (by simp)
      · rw [matchAlt3At, if_neg h1, if_neg h2, if_neg h3]

lemma matchAlt1At_none_conn (cn : String) (hcn : cn ∈ connectorWords) (X : List Char) :
    matchAlt1At (cn.data ++ X) = none := by
  simp only [connectorWords, List.mem_cons, List.not_mem_nil, or_false] at hcn
  rcases hcn with rfl | rfl | rfl | rfl | rfl | rfl <;> rfl

/-- On a digit-free text, none of the digit-led patterns matches anywhere. -/
lemma search_nodig (s : List Char) (h : ∀ c ∈ s, isDig c = false) :
    searchAt matchPat1At s = none ∧ searchAt matchPat3At s = none ∧
    searchAt matchNumAt s = none := by
  induction s with
  | nil => exact ⟨searchAt_nil rfl, searchAt_nil rfl, searchAt_nil rfl⟩
  | cons c t ih =>
    have hc : isDig c = false := h c (by simp)
    have ih' := ih (fun x hx => h x (by simp [hx]))
    have hnum : matchNumAt (c :: t) = none :=
      matchNumAt_none_head _ (by intro x hx; cases hx; exact hc)
    have hp1 : matchPat1At (c :: t) = none := by simp [matchPat1At, hnum]
    have hp3 : matchPat3At (c :: t) = none := by simp [matchPat3At, hnum]
    refine ⟨?_, ?_, ?_⟩
    · rw [searchAt_cons_miss hp1, ih'.1]
      rfl
    · rw [searchAt_cons_miss hp3, ih'.2.1]
      rfl
    · rw [searchAt_cons_miss hnum, ih'.2.2]
      rfl

/-- Pattern 2 (`₹\s*num`) never matches on a text without the rupee sign. -/
lemma search_pat2_none (s : List Char) (h : ∀ c ∈ s, ('₹' == c) = false) :
    searchAt matchPat2At s = none := by
  induction s with
  | nil => exact searchAt_nil rfl
  | cons c t ih =>
    have hp : matchPat2At (c :: t) = none := by
      simp [matchPat2At, startsW, h c (by simp)]
    rw [searchAt_cons_miss hp, ih (fun x hx => h x (by simp [hx]))]
    rfl

/-- On `digits ++ " " ++ tail` with a digit-free tail whose head is not
whitespace and which no currency alternation matches, patterns 1 and 3 fail
at every position. -/
lemma search_pat13_none (tail : List Char)
    (hnd : ∀ c ∈ tail, isDig c = false)
    (hth : ∀ c, tail.head? = some c → wsChar c = false)
    (halt : matchAlt1At tail = none) :
    ∀ d, (∀ c ∈ d, isDig c = true) →
      searchAt matchPat1At (d ++ ' ' :: tail) = none ∧
      searchAt matchPat3At (d ++ ' ' :: tail) = none := by
  have halt3 := matchAlt3At_none_of_alt1 halt
  have hdws : (' ' :: tail).dropWhile wsChar = tail := by
    rw [List.dropWhile_cons]
    simp only [show wsChar ' ' = true from rfl, if_true]
    cases tail with
    | nil => rfl
    | cons c t => exact dropWhile_cons_false (hth c rfl)
  intro d
  induction d with
  | nil =>
    intro _
    have hnum : matchNumAt (' ' :: tail) = none :=
      matchNumAt_none_head _ (by intro x hx; cases hx; rfl)
    have hp1 : matchPat1At (' ' :: tail) = none := by simp [matchPat1At, hnum]
    have hp3 : matchPat3At (' ' :: tail) = none := by simp [matchPat3At, hnum]
    have hrest := search_nodig tail hnd
    rw [List.nil_append]
    constructor
    · rw [searchAt_cons_miss hp1, hrest.1]
      rfl
    · rw [searchAt_cons_miss hp3, hrest.2.1]
      rfl
  | cons c d' ihd =>
    intro hd2
    have ih' := ihd (fun x hx => hd2 x (by simp [hx]))
    have hnum : matchNumAt ((c :: d') ++ ' ' :: tail) = some (c :: d', ' ' :: tail) :=
      matchNumAt_digits (c :: d') (' ' :: tail) (by simp) hd2
        (by intro x hx; cases hx; exact ⟨rfl, rfl⟩)
    have hp1 : matchPat1At ((c :: d') ++ ' ' :: tail) = none := by
      unfold matchPat1At
      rw [hnum]
      simp [hdws, halt]
    have hp3 : matchPat3At ((c :: d') ++ ' ' :: tail) = none := by
      unfold matchPat3At
      rw [hnum]
      simp [hdws, halt3]
    have hp1' : matchPat1At (c :: (d' ++ ' ' :: tail)) = none := hp1
    have hp3' : matchPat3At (c :: (d' ++ ' ' :: tail)) = none := hp3
    constructor
    · rw [List.cons_append, searchAt_cons_miss hp1', ih'.1]
      rfl
    · rw [List.cons_append, searchAt_cons_miss hp3', ih'.2]
      rfl

lemma pstrip_cons_space (x : List Char) : pstrip (' ' :: x) = pstrip x := by
  unfold pstrip trimLeft
  rw [List.dropWhile_cons]
  simp [show wsChar ' ' = true from rfl]

lemma append_ne_nil_left {d X : List Char} (hd : d ≠ []) : d ++ X ≠ [] := by
  cases d with
  | nil => exact absurd rfl hd
  | cons a t => simp

/-- Pattern 1 matches a digits-plus-marker span at the head of the text. -/
lemma matchPat1At_marker (d : List Char) (mk : String) (rest : List Char)
    (hd1 : d ≠ []) (hd2 : ∀ c ∈ d, isDig c = true) (hmk : mk ∈ markerStrings) :
    matchPat1At (d ++ (mk.data ++ ' ' :: rest)) = some (d, ' ' :: rest) := by
  simp only [markerStrings, List.mem_cons, List.not_mem_nil, or_false] at hmk
  rcases hmk with rfl | rfl | rfl | rfl
  · unfold matchPat1At
    rw [matchNumAt_digits d _ hd1 hd2
      (by intro x hx
          rw [show ("rs".data ++ ' ' :: rest).head? = some 'r' from rfl] at hx
          cases hx
          exact ⟨rfl, rfl⟩)]
    rfl
  · unfold matchPat1At
    rw [matchNumAt_digits d _ hd1 hd2
      (by intro x hx
          rw [show ("rupees".data ++ ' ' :: rest).head? = some 'r' from rfl] at hx
          cases hx
          exact ⟨rfl, rfl⟩)]
    rfl
  · unfold matchPat1At
    rw [matchNumAt_digits d _ hd1 hd2
      (by intro x hx
          rw [show ("inr".data ++ ' ' :: rest).head? = some 'i' from rfl] at hx
          cases hx
          exact ⟨rfl, rfl⟩)]
    rfl
  · unfold matchPat1At
    rw [matchNumAt_digits d _ hd1 hd2
      (by intro x hx
          rw [show ("₹".data ++ ' ' :: rest).head? = some '₹' from rfl] at hx
          cases hx
          exact ⟨rfl, rfl⟩)]
    rfl

/-- `findAmount` on a marker-carrying sentence: pattern 1 wins at position
0, the matched span is removed, and the residual is the stripped tail. -/
lemma findAmount_marker (d : List Char) (mk : String) (rest : List Char)
    (hd1 : d ≠ []) (hd2 : ∀ c ∈ d, isDig c = true) (hmk : mk ∈ markerStrings)
    (hstrip : pstrip rest = rest) :
    findAmount (d ++ (mk.data ++ ' ' :: rest)) = some (d, rest) := by
  have hs1 : searchAt matchPat1At (d ++ (mk.data ++ ' ' :: rest)) =
      some ([], d, ' ' :: rest) :=
    searchAt_head_hit (append_ne_nil_left hd1) (matchPat1At_marker d mk rest hd1 hd2 hmk)
  unfold findAmount
  rw [hs1]
  show some (d, pstrip ([] ++ ' ' :: rest)) = some (d, rest)
  rw [List.nil_append, pstrip_cons_space, hstrip]

/-- `findAmount` on a marker-free sentence: patterns 1–3 fail everywhere
and the bare-number pattern wins at position 0. -/
lemma findAmount_nomarker (d tail : List Char)
    (hd1 : d ≠ []) (hd2 : ∀ c ∈ d, isDig c = true)
    (hnd : ∀ c ∈ tail, isDig c = false)
    (hth : ∀ c, tail.head? = some c → wsChar c = false)
    (halt : matchAlt1At tail = none)
    (hrup : ∀ c ∈ tail, ('₹' == c) = false)
    (hstrip : pstrip tail = tail) :
    findAmount (d ++ ' ' :: tail) = some (d, tail) := by
  obtain ⟨h1, h3⟩ := search_pat13_none tail hnd hth halt d hd2
  have h2 : searchAt matchPat2At (d ++ ' ' :: tail) = none := by
    apply search_pat2_none
    intro c hc
    rcases List.mem_append.mp hc with hcd | hct
    · apply beq_false_of_toNat_ne
      have hb := (isDig_bounds (hd2 c hcd)).2
      intro he
      rw [show ('₹'.toNat) = 8377 from rfl] at he
      omega
    · rcases List.mem_cons.mp hct with rfl | hct'
      · rfl
      · exact hrup c hct'
  have hnum : matchNumAt (d ++ ' ' :: tail) = some (d, ' ' :: tail) :=
    matchNumAt_digits d _ hd1 hd2 (by intro x hx; cases hx; exact ⟨rfl, rfl⟩)
  have hs4 : searchAt matchNumAt (d ++ ' ' :: tail) = some ([], d, ' ' :: tail) :=
    searchAt_head_hit (append_ne_nil_left hd1) hnum
  unfold findAmount
  rw [h1, h2, h3, hs4]
  show some (d, pstrip ([] ++ ' ' :: tail)) = some (d, tail)
  rw [List.nil_append, pstrip_cons_space, hstrip]

/-! ### C2: the verb and connector loops -/

lemma foldl_stripStep_no_match (vs : List String) (s : List Char) (n : Nat)
    (h : ∀ v ∈ vs, startsW v.data s = false) :
    List.foldl stripStep (s, n) vs = (s, n) := by
  induction vs with
  | nil => rfl
  | cons v vs ih =>
    rw [List.foldl_cons,
      show stripStep (s, n) v = (s, n) from by simp [stripStep, h v (by simp)]]
    exact ih (fun u hu => h u (by simp [hu]))

lemma startsW_letter_notdig (a : Char) (ts s : List Char)
    (ha : 97 ≤ a.toNat) (hs : ∀ c, s.head? = some c → isDig c = true) :
    startsW (a :: ts) s = false := by
  cases s with
  | nil => rfl
  | cons b t =>
    have hb := isDig_bounds (hs b rfl)
    have hab : (a == b) = false := beq_false_of_toNat_ne (by omega)
    simp [startsW, hab]

lemma verbs_reject_digit (core : List Char)
    (hd : ∀ c, core.head? = some c → isDig c = true) :
    ∀ v ∈ commonPrefixes, startsW v.data core = false := by
  intro v hv
  simp only [commonPrefixes, List.mem_cons, List.not_mem_nil, or_false] at hv
  rcases hv with rfl | rfl | rfl | rfl | rfl | rfl
  · exact startsW_letter_notdig 'a' _ core (by decide) hd
  · exact startsW_letter_notdig 's' _ core (by decide) hd
  · exact startsW_letter_notdig 's' _ core (by decide) hd
  · exact startsW_letter_notdig 'p' _ core (by decide) hd
  · exact startsW_letter_notdig 'e' _ core (by decide) hd
  · exact startsW_letter_notdig 'e' _ core (by decide) hd

/-- One verb of the list strips, the verbs before it do not match, and the
verbs after it do not match the stripped core. -/
lemma stripPrefixLoop_strip_at (v : String) (pre suf : List String) (core : List Char)
    (hsplit : commonPrefixes = pre ++ v :: suf)
    (hpre : ∀ u ∈ pre, startsW u.data ((v.data ++ [' ']) ++ core) = false)
    (hsuf : ∀ u ∈ suf, startsW u.data core = false)
    (hps : pstrip core = core) :
    (stripPrefixLoop ((v.data ++ [' ']) ++ core)).1 = core := by
  have hsw : startsW v.data ((v.data ++ [' ']) ++ core) = true := by
    rw [List.append_assoc]
    exact startsW_self_append _ _
  have hdrop : ((v.data ++ [' ']) ++ core).drop v.data.length = ' ' :: core := by
    rw [List.append_assoc, List.drop_left]
    rfl
  have hstep : stripStep ((v.data ++ [' ']) ++ core, 0) v = (core, 1) := by
    simp only [stripStep, hsw, if_true]
    rw [hdrop, pstrip_cons_space, hps]
  unfold stripPrefixLoop
  rw [hsplit, List.foldl_append, foldl_stripStep_no_match pre _ 0 hpre,
    List.foldl_cons, hstep, foldl_stripStep_no_match suf core 1 hsuf]

/-- The verb-stripping loop on a grammar sentence: the optional verb (and
nothing else) is stripped, leaving the digit-led core. -/
lemma stripPrefixLoop_utterance (p : Option String) (core : List Char)
    (hp : ∀ v ∈ p, v ∈ commonPrefixes)
    (hd : ∀ c, core.head? = some c → isDig c = true)
    (hps : pstrip core = core) :
    (stripPrefixLoop (optVerb p ++ core)).1 = core := by
  have hrej := verbs_reject_digit core hd
  rcases p with _ | v
  · rw [optVerb_none, List.nil_append]
    unfold stripPrefixLoop
    rw [foldl_stripStep_no_match _ _ _ hrej]
  · have hv : v ∈ commonPrefixes := hp v rfl
    have hsub : ∀ (l : List String), (∀ u ∈ l, u ∈ commonPrefixes) →
        ∀ u ∈ l, startsW u.data core = false :=
      fun l hl u hu => hrej u (hl u hu)
    simp only [commonPrefixes, List.mem_cons, List.not_mem_nil, or_false] at hv
    rcases hv with rfl | rfl | rfl | rfl | rfl | rfl
    · exact stripPrefixLoop_strip_at "add" [] ["spent", "spend", "paid", "expense", "exp"]
        core rfl (by intro u hu; simp at hu)
        (hsub _ (by intro u hu; simp [commonPrefixes] at hu ⊢; tauto)) hps
    · exact stripPrefixLoop_strip_at "spent" ["add"] ["spend", "paid", "expense", "exp"]
        core rfl
        (by intro u hu
            simp only [List.mem_cons, List.not_mem_nil, or_false] at hu
            subst hu
            rfl)
        (hsub _ (by intro u hu; simp [commonPrefixes] at hu ⊢; tauto)) hps
    · exact stripPrefixLoop_strip_at "spend" ["add", "spent"] ["paid", "expense", "exp"]
        core rfl
        (by intro u hu
            simp only [List.mem_cons, List.not_mem_nil, or_false] at hu
            rcases hu with rfl | rfl <;> rfl)
        (hsub _ (by intro u hu; simp [commonPrefixes] at hu ⊢; tauto)) hps
    · exact stripPrefixLoop_strip_at "paid" ["add", "spent", "spend"] ["expense", "exp"]
        core rfl
        (by intro u hu
            simp only [List.mem_cons, List.not_mem_nil, or_false] at hu
            rcases hu with rfl | rfl | rfl <;> rfl)
        (hsub _ (by intro u hu; simp [commonPrefixes] at hu ⊢; tauto)) hps
    · exact stripPrefixLoop_strip_at "expense" ["add", "spent", "spend", "paid"] ["exp"]
        core rfl
        (by intro u hu
            simp only [List.mem_cons, List.not_mem_nil, or_false] at hu
            rcases hu with rfl | rfl | rfl | rfl <;> rfl)
        (hsub _ (by intro u hu; simp [commonPrefixes] at hu ⊢; tauto)) hps
    · exact stripPrefixLoop_strip_at "exp" ["add", "spent", "spend", "paid", "expense"] []
        core rfl
        (by intro u hu
            simp only [List.mem_cons, List.not_mem_nil, or_false] at hu
            rcases hu with rfl | rfl | rfl | rfl | rfl <;> rfl)
        (by intro u hu; simp at hu) hps

lemma foldl_connStep_no_match (vs : List String) (s : List Char)
    (h : ∀ v ∈ vs, startsW (v.data ++ [' ']) s = false) :
    List.foldl connStep s vs = s := by
  induction vs with
  | nil => rfl
  | cons v vs ih =>
    rw [List.foldl_cons,
      show connStep s v = s from by simp [connStep, h v (by simp)]]
    exact ih (fun u hu => h u (by simp [hu]))

/-- No connector matches a `<word> <rest>?` residual: a connector followed
by a space can only be a prefix of it if the word equals the connector. -/
lemma conns_reject_word (w : List Char) (R : List Char)
    (hwa : ∀ c ∈ w, lowerAlpha c = true)
    (hconn : ∀ s ∈ connectorWords, w ≠ s.data)
    (hR : R = [] ∨ ∃ rr, R = ' ' :: rr) :
    ∀ cn ∈ connectorWords, startsW (cn.data ++ [' ']) (w ++ R) = false := by
  intro cn hcn
  have hw' : ∀ c ∈ w, ¬ c = ' ' := by
    intro c hc he
    subst he
    exact absurd (hwa _ hc) (by decide)
  have hcn' : ∀ c ∈ cn.data, ¬ c = ' ' := by
    simp only [connectorWords, List.mem_cons, List.not_mem_nil, or_false] at hcn
    rcases hcn with rfl | rfl | rfl | rfl | rfl | rfl <;> decide
  exact startsW_conn_false R hR cn.data w hcn' hw' (hconn cn hcn)

/-- One connector strips, earlier connectors do not match, later connectors
do not match the residual. -/
lemma stripConnLoop_strip_at (cn : String) (pre suf : List String) (t : List Char)
    (hsplit : connectorWords = pre ++ cn :: suf)
    (hpre : ∀ u ∈ pre, startsW (u.data ++ [' ']) ((cn.data ++ [' ']) ++ t) = false)
    (hsuf : ∀ u ∈ suf, startsW (u.data ++ [' ']) t = false)
    (hps : pstrip t = t) :
    stripConnectorLoop ((cn.data ++ [' ']) ++ t) = t := by
  have hsw : startsW (cn.data ++ [' ']) ((cn.data ++ [' ']) ++ t) = true :=
    startsW_self_append _ _
  have hdrop : ((cn.data ++ [' ']) ++ t).drop cn.data.length = ' ' :: t := by
    rw [List.append_assoc, List.drop_left]
    rfl
  have hstep : connStep ((cn.data ++ [' ']) ++ t) cn = t := by
    simp only [connStep, hsw, if_true]
    rw [hdrop, pstrip_cons_space, hps]
  unfold stripConnectorLoop
  rw [hsplit, List.foldl_append, foldl_connStep_no_match pre _ hpre,
    List.foldl_cons, hstep, foldl_connStep_no_match suf t hsuf]

/-- The connector loop on the residual of a grammar sentence: the optional
connector (and nothing else) is stripped. -/
lemma stripConnectorLoop_utterance (c : Option String) (w : List Char) (R : List Char)
    (hc : ∀ v ∈ c, v ∈ connectorWords)
    (hwa : ∀ ch ∈ w, lowerAlpha ch = true)
    (hconn : ∀ s ∈ connectorWords, w ≠ s.data)
    (hR : R = [] ∨ ∃ rr, R = ' ' :: rr)
    (hps : pstrip (w ++ R) = w ++ R) :
    stripConnectorLoop (optConn c ++ (w ++ R)) = w ++ R := by
  have hrej := conns_reject_word w R hwa hconn hR
  rcases c with _ | cn
  · rw [optConn_none, List.nil_append]
    unfold stripConnectorLoop
    rw [foldl_connStep_no_match _ _ hrej]
  · have hcn : cn ∈ connectorWords := hc cn rfl
    have hsub : ∀ (l : List String), (∀ u ∈ l, u ∈ connectorWords) →
        ∀ u ∈ l, startsW (u.data ++ [' ']) (w ++ R) = false :=
      fun l hl u hu => hrej u (hl u hu)
    simp only [connectorWords, List.mem_cons, List.not_mem_nil, or_false] at hcn
    rcases hcn with rfl | rfl | rfl | rfl | rfl | rfl
    · exact stripConnLoop_strip_at "as" [] ["for", "on", "at", "to", "from"] (w ++ R) rfl
        (by intro u hu; simp at hu)
        (hsub _ (by intro u hu; simp [connectorWords] at hu ⊢; tauto)) hps
    · exact stripConnLoop_strip_at "for" ["as"] ["on", "at", "to", "from"] (w ++ R) rfl
        (by intro u hu
            simp only [List.mem_cons, List.not_mem_nil, or_false] at hu
            subst hu
            rfl)
        (hsub _ (by intro u hu; simp [connectorWords] at hu ⊢; tauto)) hps
    · exact stripConnLoop_strip_at "on" ["as", "for"] ["at", "to", "from"] (w ++ R) rfl
        (by intro u hu
            simp only [List.mem_cons, List.not_mem_nil, or_false] at hu
            rcases hu with rfl | rfl <;> rfl)
        (hsub _ (by intro u hu; simp [connectorWords] at hu ⊢; tauto)) hps
    · exact stripConnLoop_strip_at "at" ["as", "for", "on"] ["to", "from"] (w ++ R) rfl
        (by intro u hu
            simp only [List.mem_cons, List.not_mem_nil, or_false] at hu
            rcases hu with rfl | rfl | rfl <;> rfl)
        (hsub _ (by intro u hu; simp [connectorWords] at hu ⊢; tauto)) hps
    · exact stripConnLoop_strip_at "to" ["as", "for", "on", "at"] ["from"] (w ++ R) rfl
        (by intro u hu
            simp only [List.mem_cons, List.not_mem_nil, or_false] at hu
            rcases hu with rfl | rfl | rfl | rfl <;> rfl)
        (hsub _ (by intro u hu; simp [connectorWords] at hu ⊢; tauto)) hps
    · exact stripConnLoop_strip_at "from" ["as", "for", "on", "at", "to"] [] (w ++ R) rfl
        (by intro u hu
            simp only [List.mem_cons, List.not_mem_nil, or_false] at hu
            rcases hu with rfl | rfl | rfl | rfl | rfl <;> rfl)
        (by intro u hu; simp at hu) hps

/-! ### C2: the residual split and the amount value -/

lemma takeWhile_all {p : Char → Bool} (l : List Char) (h : ∀ c ∈ l, p c = true) :
    l.takeWhile p = l := by
  induction l with
  | nil => rfl
  | cons a t ih =>
    rw [List.takeWhile_cons, h a (by simp), ih (fun c hc => h c (by simp [hc]))]
    simp

lemma dropWhile_all {p : Char → Bool} (l : List Char) (h : ∀ c ∈ l, p c = true) :
    l.dropWhile p = [] := by
  induction l with
  | nil => rfl
  | cons a t ih =>
    rw [List.dropWhile_cons, h a (by simp)]
    simp [ih (fun c hc => h c (by simp [hc]))]

/-- `float` of a pure digit group is its integer value. -/
lemma numVal_digits (d : List Char) (hd2 : ∀ c ∈ d, isDig c = true) :
    numVal d = (digitsToNat d : ℚ) := by
  have hnd : ∀ c ∈ d, (fun c => decide (c ≠ '.')) c = true := by
    intro c hc
    simpa using ne_dot_of_isDig (hd2 c hc)
  unfold numVal
  rw [dropWhile_all d hnd]
  rw [takeWhile_all d hnd]

lemma isEmpty_false_of_ne_nil {l : List Char} (h : l ≠ []) : l.isEmpty = false := by
  simpa [List.isEmpty_iff] using h

/-- The residual split on `<word>` or `<word> <rest>`. -/
lemma splitCatMer_word (w : List Char) (r : Option (List Char))
    (hw0 : w ≠ []) (hwa : ∀ c ∈ w, lowerAlpha c = true)
    (hr : ∀ rr ∈ r, goodRest rr) :
    splitCatMer (w ++ optRest r) =
      (String.mk w, r.map (fun rr => String.mk rr)) := by
  have hwsep : ∀ c ∈ w, (fun c => !sepChar c) c = true := by
    intro c hc
    simp [sepChar_of_lowerAlpha (hwa c hc)]
  have hpsw : pstrip w = w :=
    pstrip_eq_self w
      (fun c hc => wsChar_of_lowerAlpha (hwa c (List.mem_of_mem_head? hc)))
      (fun c hc => wsChar_of_lowerAlpha (hwa c (List.mem_of_mem_getLast? hc)))
  rcases r with _ | rr
  · show splitCatMer (w ++ []) = (String.mk w, none)
    rw [List.append_nil]
    have hsp := takeWhile_append_sat (fun c => !sepChar c) w [] hwsep
      (by intro c hc; simp at hc)
    rw [List.append_nil] at hsp
    unfold splitCatMer
    rw [if_neg (by simp [isEmpty_false_of_ne_nil hw0]), hsp.2, hsp.1]
    show (catName w, none) = (String.mk w, none)
    unfold catName
    rw [hpsw, if_neg (by simp [isEmpty_false_of_ne_nil hw0])]
  · obtain ⟨hr0, hra, hrh, hrl⟩ := hr rr rfl
    show splitCatMer (w ++ ' ' :: rr) = (String.mk w, some (String.mk rr))
    have hsp := takeWhile_append_sat (fun c => !sepChar c) w (' ' :: rr) hwsep
      (by intro c hc
          cases hc
          rfl)
    unfold splitCatMer
    rw [if_neg (by simp), hsp.2, hsp.1]
    show (catName w, merName (' ' :: rr)) = _
    have hdrr : (' ' :: rr).dropWhile sepChar = rr := by
      rw [List.dropWhile_cons]
      simp only [show sepChar ' ' = true from rfl, if_true]
      cases rr with
      | nil => rfl
      | cons a t => exact dropWhile_cons_false (by rw [sepChar_of_lowerAlpha (hrh a rfl)])
    have hpsr : pstrip rr = rr :=
      pstrip_eq_self rr
        (fun c hc => wsChar_of_lowerAlpha (hrh c hc))
        (fun c hc => wsChar_of_lowerAlpha (hrl c hc))
    unfold catName merName
    rw [hpsw, hdrr, hpsr, if_neg (by simp [isEmpty_false_of_ne_nil hw0]),
      if_neg (by simp [isEmpty_false_of_ne_nil hr0])]

/-- C2 counterexample: "15 rsvp" is a sentence of the claimed §8 grammar
(`<digits> <word>` with digits "15" and word "rsvp", a nonempty
lowercase-letter token that is no connector word), yet the extractor does
not return the word "rsvp" as the category: first-match-wins lets pattern 1
consume "15 rs", and the category becomes the leftover "vp". -/
theorem C2_counterexample :
    mkUtterance none "15".data none none "rsvp".data none = "15 rsvp".data ∧
    "rsvp".data ≠ ([] : List Char) ∧
    (∀ ch ∈ "rsvp".data, lowerAlpha ch = true) ∧
    (∀ s ∈ connectorWords, "rsvp".data ≠ s.data) ∧
    TextTransactionParser.parse "15 rsvp" =
      some { amount := 15, currency := "INR", merchant := none,
             category := "vp", date := none } ∧
    TextTransactionParser.parse "15 rsvp" ≠
      some (expectedParse "15".data "rsvp".data none) := by
  refine ⟨by decide, by decide, by decide, ?_, by decide, by decide⟩
  intro s hs
  fin_cases hs <;> decide

/-- C2 (amended): for every sentence of the §8 grammar
`"<prefix>? <digits>(rs|rupees|inr|₹)? <connector>? <word>(<rest>)?"` whose
`<word>` moreover does not start with "rs", "rupee" or "inr" (otherwise
first-match-wins consumes the marker-like start of the word together with
the digits, see the counterexample above) and is not itself a connector
word (with the token classes made precise by `goodWord`/`goodRest`), the
deterministic extractor returns the digits as the amount, `<word>` as the
category and `<rest>` (or null) as the merchant, with currency "INR" and a
null date; and the two literal cases of the claim parse as stated. -/
theorem C2_section8_grammar
    (p : Option String) (d : List Char) (m : Option String)
    (c : Option String) (w : List Char) (r : Option (List Char))
    (hp : ∀ v ∈ p, v ∈ commonPrefixes)
    (hd1 : d ≠ []) (hd2 : ∀ ch ∈ d, isDig ch = true)
    (hm : ∀ v ∈ m, v ∈ markerStrings)
    (hc : ∀ v ∈ c, v ∈ connectorWords)
    (hw : goodWord w)
    (hr : ∀ rr ∈ r, goodRest rr) :
    TextTransactionParser.parse (String.mk (mkUtterance p d m c w r)) =
      some (expectedParse d w r) ∧
    TextTransactionParser.parse "add 15rs as coffee" =
      some { amount := 15, currency := "INR", merchant := none,
             category := "coffee", date := none } ∧
    TextTransactionParser.parse "42" =
      some { amount := 42, currency := "INR", merchant := none,
             category := "Uncategorized", date := none } := by
  refine ⟨?_, by decide, by decide⟩
  obtain ⟨hw0, hwa, hwrs, hwrup, hwinr, hwconn⟩ := hw
  have hRshape : optRest r = [] ∨ ∃ rr', optRest r = ' ' :: rr' := by
    rcases r with _ | rr
    · exact Or.inl rfl
    · exact Or.inr ⟨rr, rfl⟩
  have hRchars : ∀ ch ∈ optRest r, lowerAlpha ch = true ∨ ch = ' ' := by
    rcases r with _ | rr
    · intro ch hch
      simp [optRest] at hch
    · obtain ⟨_, hra, _, _⟩ := hr rr rfl
      intro ch hch
      have hch2 : ch ∈ ' ' :: rr := hch
      rcases List.mem_cons.mp hch2 with rfl | hch'
      · exact Or.inr rfl
      · exact hra ch hch'
  have hwr_ne : w ++ optRest r ≠ [] := by
    cases w with
    | nil => exact absurd rfl hw0
    | cons a t => simp
  have hlastWR : ∀ ch, (w ++ optRest r).getLast? = some ch → wsChar ch = false := by
    rcases r with _ | rr
    · intro ch hch
      have hch' : (w ++ []).getLast? = some ch := hch
      rw [List.append_nil] at hch'
      exact wsChar_of_lowerAlpha (hwa ch (List.mem_of_mem_getLast? hch'))
    · obtain ⟨hr0, hra, hrh, hrl⟩ := hr rr rfl
      intro ch hch
      have hch' : (w ++ ([' '] ++ rr)).getLast? = some ch := hch
      rw [List.getLast?_append_of_ne_nil _ (by simp),
        List.getLast?_append_of_ne_nil _ hr0] at hch'
      exact wsChar_of_lowerAlpha (hrl ch hch')
  have htail_chars : ∀ ch ∈ optConn c ++ (w ++ optRest r),
      lowerAlpha ch = true ∨ ch = ' ' := by
    intro ch hch
    rcases List.mem_append.mp hch with hC | hch
    · rcases c with _ | cn
      · simp [optConn] at hC
      · have hv := hc cn rfl
        simp only [connectorWords, List.mem_cons, List.not_mem_nil, or_false] at hv
        rcases hv with rfl | rfl | rfl | rfl | rfl | rfl
        · have hC' : ch ∈ (['a', 's', ' '] : List Char) := hC
          fin_cases hC' <;> decide
        · have hC' : ch ∈ (['f', 'o', 'r', ' '] : List Char) := hC
          fin_cases hC' <;> decide
        · have hC' : ch ∈ (['o', 'n', ' '] : List Char) := hC
          fin_cases hC' <;> decide
        · have hC' : ch ∈ (['a', 't', ' '] : List Char) := hC
          fin_cases hC' <;> decide
        · have hC' : ch ∈ (['t', 'o', ' '] : List Char) := hC
          fin_cases hC' <;> decide
        · have hC' : ch ∈ (['f', 'r', 'o', 'm', ' '] : List Char) := hC
          fin_cases hC' <;> decide
    · rcases List.mem_append.mp hch with hmw | hR
      · exact Or.inl (hwa ch hmw)
      · exact hRchars ch hR
  have hnd_tail : ∀ ch ∈ optConn c ++ (w ++ optRest r), isDig ch = false := by
    intro ch hch
    rcases htail_chars ch hch with hl | rfl
    · exact isDig_of_lowerAlpha hl
    · rfl
  have hrup_tail : ∀ ch ∈ optConn c ++ (w ++ optRest r), ('₹' == ch) = false := by
    intro ch hch
    rcases htail_chars ch hch with hl | rfl
    · apply beq_false_of_toNat_ne
      have := (lowerAlpha_bounds hl).2
      intro he
      rw [show ('₹'.toNat) = 8377 from rfl] at he
      omega
    · rfl
  rcases w with _ | ⟨wh, wt⟩
  · exact absurd rfl hw0
  rcases d with _ | ⟨dh, dt⟩
  · exact absurd rfl hd1
  have hth_tail : ∀ ch, (optConn c ++ ((wh :: wt) ++ optRest r)).head? = some ch →
      wsChar ch = false := by
    rcases c with _ | cn
    · intro ch hch
      have hch' : some wh = some ch := hch
      cases hch'
      exact wsChar_of_lowerAlpha (hwa wh (by simp))
    · have hv := hc cn rfl
      simp only [connectorWords, List.mem_cons, List.not_mem_nil, or_false] at hv
      rcases hv with rfl | rfl | rfl | rfl | rfl | rfl
      · intro ch hch
        have hch' : some 'a' = some ch := hch
        cases hch'
        rfl
      · intro ch hch
        have hch' : some 'f' = some ch := hch
        cases hch'
        rfl
      · intro ch hch
        have hch' : some 'o' = some ch := hch
        cases hch'
        rfl
      · intro ch hch
        have hch' : some 'a' = some ch := hch
        cases hch'
        rfl
      · intro ch hch
        have hch' : some 't' = some ch := hch
        cases hch'
        rfl
      · intro ch hch
        have hch' : some 'f' = some ch := hch
        cases hch'
        rfl
  have halt_tail : matchAlt1At (optConn c ++ ((wh :: wt) ++ optRest r)) = none := by
    rcases c with _ | cn
    · rw [optConn_none, List.nil_append]
      exact matchAlt1At_none_word (wh :: wt) _
        ⟨by simp, hwa, hwrs, hwrup, hwinr, hwconn⟩ hRshape
    · rw [optConn_some, List.append_assoc]
      exact matchAlt1At_none_conn cn (hc cn rfl) _
  have htail_ne : optConn c ++ ((wh :: wt) ++ optRest r) ≠ [] := by
    intro h
    exact hwr_ne (List.append_eq_nil.mp h).2
  have hlast_tail : ∀ ch, (optConn c ++ ((wh :: wt) ++ optRest r)).getLast? = some ch →
      wsChar ch = false := by
    intro ch hch
    rw [List.getLast?_append_of_ne_nil _ hwr_ne] at hch
    exact hlastWR ch hch
  have hps_tail : pstrip (optConn c ++ ((wh :: wt) ++ optRest r)) =
      optConn c ++ ((wh :: wt) ++ optRest r) :=
    pstrip_eq_self _ hth_tail hlast_tail
  have hps_wr : pstrip ((wh :: wt) ++ optRest r) = (wh :: wt) ++ optRest r := by
    apply pstrip_eq_self
    · intro ch hch
      have hch' : some wh = some ch := hch
      cases hch'
      exact wsChar_of_lowerAlpha (hwa wh (by simp))
    · exact hlastWR
  have hcore_head : ∀ ch,
      ((dh :: dt) ++ (optMarker m ++
        (' ' :: (optConn c ++ ((wh :: wt) ++ optRest r))))).head? = some ch →
        isDig ch = true := by
    intro ch hch
    have hch' : some dh = some ch := hch
    cases hch'
    exact hd2 dh (by simp)
  have hlast_core : ∀ ch,
      ((dh :: dt) ++ (optMarker m ++
        (' ' :: (optConn c ++ ((wh :: wt) ++ optRest r))))).getLast? = some ch →
        wsChar ch = false := by
    intro ch hch
    rw [List.getLast?_append_of_ne_nil _ (by simp)] at hch
    rw [List.getLast?_append_of_ne_nil _ (by simp)] at hch
    rw [show (' ' :: (optConn c ++ ((wh :: wt) ++ optRest r))) =
      [' '] ++ (optConn c ++ ((wh :: wt) ++ optRest r)) from rfl,
      List.getLast?_append_of_ne_nil _ htail_ne] at hch
    exact hlast_tail ch hch
  have hps_core : pstrip ((dh :: dt) ++ (optMarker m ++
      (' ' :: (optConn c ++ ((wh :: wt) ++ optRest r))))) =
      (dh :: dt) ++ (optMarker m ++
      (' ' :: (optConn c ++ ((wh :: wt) ++ optRest r)))) := by
    apply pstrip_eq_self
    · intro ch hch
      have hch' : some dh = some ch := hch
      cases hch'
      exact wsChar_of_isDig (hd2 dh (by simp))
    · exact hlast_core
  have hstrip := stripPrefixLoop_utterance p _ hp hcore_head hps_core
  have hfind : findAmount ((dh :: dt) ++ (optMarker m ++
      (' ' :: (optConn c ++ ((wh :: wt) ++ optRest r))))) =
      some (dh :: dt, optConn c ++ ((wh :: wt) ++ optRest r)) := by
    rcases m with _ | mk
    · rw [optMarker_none, List.nil_append]
      exact findAmount_nomarker (dh :: dt) _ (by simp) hd2 hnd_tail hth_tail halt_tail
        hrup_tail hps_tail
    · rw [optMarker_some]
      exact findAmount_marker (dh :: dt) mk _ (by simp) hd2 (hm mk rfl) hps_tail
  have hconn := stripConnectorLoop_utterance c (wh :: wt) _ hc hwa hwconn hRshape hps_wr
  have hsplit := splitCatMer_word (wh :: wt) r (by simp) hwa hr
  have hU_ne : optVerb p ++ ((dh :: dt) ++ (optMarker m ++
      (' ' :: (optConn c ++ ((wh :: wt) ++ optRest r))))) ≠ [] := by
    intro h
    have h2 := (List.append_eq_nil.mp h).2
    simp at h2
  have hheadU : ∀ ch,
      (optVerb p ++ ((dh :: dt) ++ (optMarker m ++
        (' ' :: (optConn c ++ ((wh :: wt) ++ optRest r)))))).head? = some ch →
        wsChar ch = false := by
    rcases p with _ | v
    · intro ch hch
      have hch' : some dh = some ch := hch
      cases hch'
      exact wsChar_of_isDig (hd2 dh (by simp))
    · have hv := hp v rfl
      simp only [commonPrefixes, List.mem_cons, List.not_mem_nil, or_false] at hv
      rcases hv with rfl | rfl | rfl | rfl | rfl | rfl
      · intro ch hch
        have hch' : some 'a' = some ch := hch
        cases hch'
        rfl
      · intro ch hch
        have hch' : some 's' = some ch := hch
        cases hch'
        rfl
      · intro ch hch
        have hch' : some 's' = some ch := hch
        cases hch'
        rfl
      · intro ch hch
        have hch' : some 'p' = some ch := hch
        cases hch'
        rfl
      · intro ch hch
        have hch' : some 'e' = some ch := hch
        cases hch'
        rfl
      · intro ch hch
        have hch' : some 'e' = some ch := hch
        cases hch'
        rfl
  have hlastU : ∀ ch,
      (optVerb p ++ ((dh :: dt) ++ (optMarker m ++
        (' ' :: (optConn c ++ ((wh :: wt) ++ optRest r)))))).getLast? = some ch →
        wsChar ch = false := by
    intro ch hch
    rw [List.getLast?_append_of_ne_nil _ (by simp)] at hch
    exact hlast_core ch hch
  have hpsU := pstrip_eq_self _ hheadU hlastU
  have hmemU : ∀ ch ∈ optVerb p ++ ((dh :: dt) ++ (optMarker m ++
      (' ' :: (optConn c ++ ((wh :: wt) ++ optRest r))))), ch.toLower = ch := by
    intro ch hch
    rcases List.mem_append.mp hch with hP | hch
    · rcases p with _ | v
      · simp [optVerb] at hP
      · have hv := hp v rfl
        simp only [commonPrefixes, List.mem_cons, List.not_mem_nil, or_false] at hv
        rcases hv with rfl | rfl | rfl | rfl | rfl | rfl
        · have hP' : ch ∈ (['a', 'd', 'd', ' '] : List Char) := hP
          fin_cases hP' <;> decide
        · have hP' : ch ∈ (['s', 'p', 'e', 'n', 't', ' '] : List Char) := hP
          fin_cases hP' <;> decide
        · have hP' : ch ∈ (['s', 'p', 'e', 'n', 'd', ' '] : List Char) := hP
          fin_cases hP' <;> decide
        · have hP' : ch ∈ (['p', 'a', 'i', 'd', ' '] : List Char) := hP
          fin_cases hP' <;> decide
        · have hP' : ch ∈ (['e', 'x', 'p', 'e', 'n', 's', 'e', ' '] : List Char) := hP
          fin_cases hP' <;> decide
        · have hP' : ch ∈ (['e', 'x', 'p', ' '] : List Char) := hP
          fin_cases hP' <;> decide
    · rcases List.mem_append.mp hch with hD | hch
      · exact toLower_fix_isDig (hd2 ch hD)
      · rcases List.mem_append.mp hch with hM | hch
        · rcases m with _ | mk
          · simp [optMarker] at hM
          · have hv := hm mk rfl
            simp only [markerStrings, List.mem_cons, List.not_mem_nil, or_false] at hv
            rcases hv with rfl | rfl | rfl | rfl
            · have hM' : ch ∈ (['r', 's'] : List Char) := hM
              fin_cases hM' <;> decide
            · have hM' : ch ∈ (['r', 'u', 'p', 'e', 'e', 's'] : List Char) := hM
              fin_cases hM' <;> decide
            · have hM' : ch ∈ (['i', 'n', 'r'] : List Char) := hM
              fin_cases hM' <;> decide
            · have hM' : ch ∈ (['₹'] : List Char) := hM
              fin_cases hM'
              decide
        · rcases List.mem_cons.mp hch with rfl | hch
          · rfl
          · rcases htail_chars ch hch with hl | rfl
            · exact toLower_fix_lowerAlpha hl
            · rfl
  have hlowU := map_toLower_fix _ hmemU
  unfold TextTransactionParser.parse
  rw [show (String.mk (mkUtterance p (dh :: dt) m c (wh :: wt) r)).data =
    mkUtterance p (dh :: dt) m c (wh :: wt) r from rfl]
  unfold mkUtterance
  unfold parseCore
  rw [hpsU, if_neg (by simp [isEmpty_false_of_ne_nil hU_ne]), hlowU, hstrip, hfind]
  show some (finishParse (dh :: dt) (stripConnectorLoop _)) = _
  rw [hconn]
  unfold finishParse expectedParse
  rw [hsplit, numVal_digits (dh :: dt) hd2]

/-- Witness for C2 at the fully-populated concrete sentence
"spent 50rs on food bazaar". -/
theorem C2_witness :
    TextTransactionParser.parse
        (String.mk (mkUtterance (some "spent") "50".data (some "rs") (some "on")
          "food".data (some "bazaar".data))) =
      some (expectedParse "50".data "food".data (some "bazaar".data)) :=
  (C2_section8_grammar (some "spent") "50".data (some "rs") (some "on")
    "food".data (some "bazaar".data)
    (by intro v hv; cases hv; decide)
    (by decide) (by decide)
    (by intro v hv; cases hv; decide)
    (by intro v hv; cases hv; decide)
    (by refine ⟨by decide, by decide, by decide, by decide, by decide, ?_⟩
        intro s hs
        fin_cases hs <;> decide)
    (by intro rr hrr
        cases hrr
        exact ⟨by decide, by decide, by decide, by decide⟩)).1

end FinanceTracker
